import Mathlib

/-!
Verification of the youtube-digest ingestion pipeline.

This file gives a shallow embedding, in Lean 4, of the core ingestion
pipeline of the repository:

* `services/automation/chunking_utils.py` — transcript chunking
  (`TranscriptChunker`) and identity/payload building
  (`ChunkMetadataBuilder`);
* `services/automation/retry_utils.py` — exponential-backoff retry
  (`RetryConfig`, `calculate_delay`, `is_retryable_error`,
  `retry_with_exponential_backoff`);
* `services/automation/supadata_rate_limiter.py` — sliding-window rate
  limiter (`SupadataRateLimiter`);
* `services/automation/qdrant_vector_db.py` — the ingestion coordinator
  (`add_transcript_chunks`, `video_chunks_exist`).

Modelling conventions:

* Python ints are `Nat`/`Int`; Python floats (delays, timestamps) are
  modelled by exact rationals `ℚ` — the idealised real-number semantics of
  the arithmetic the source performs.
* Calls into external libraries (the Qdrant client, the embedding model,
  `random.uniform`, `time.sleep`, `datetime.now`) are modelled as explicit
  oracle parameters; sleeping for `d` seconds advances the model clock by
  exactly `d`.
* Loops that the source writes with unbounded `while` are embedded with an
  explicit fuel argument (structural recursion), and fuel-independence is
  proved for the domain on which the source loop terminates.
-/

namespace YTDigest

/-! ### Python string helpers

`str.split()` with no arguments splits on runs of whitespace and discards
empty pieces; `str.strip()` removes leading/trailing whitespace. -/

/-- Whitespace characters recognised by Python's `str.split()` /
`str.strip()` (ASCII subset). -/
def isPyWhitespace (c : Char) : Bool :=
  c = ' ' || c = '\t' || c = '\n' || c = '\r' || c = Char.ofNat 11 || c = Char.ofNat 12

/-- Auxiliary scanner for `pySplit`: `acc` holds the current word reversed. -/
def pySplitAux : List Char → List Char → List String
  | [], acc => if acc.isEmpty then [] else [String.mk acc.reverse]
  | c :: cs, acc =>
    if isPyWhitespace c then
      if acc.isEmpty then pySplitAux cs []
      else String.mk acc.reverse :: pySplitAux cs []
    else pySplitAux cs (c :: acc)

/-- Python `text.split()`: split on whitespace runs, dropping empty pieces. -/
def pySplit (s : String) : List String :=
  pySplitAux s.data []

/-- Python `text.strip()`: drop leading and trailing whitespace. -/
def pyStrip (s : String) : String :=
  String.mk (((s.data.dropWhile isPyWhitespace).reverse.dropWhile isPyWhitespace).reverse)

/-- `TranscriptChunker.word_count`: `len((text or "").split())`. -/
def word_count (text : String) : Nat :=
  (pySplit text).length

/-! ### Data model -/

/-- The `TranscriptChunk` dataclass of `chunking_utils.py`. -/
structure TranscriptChunk where
  text : String
  start_ms : Int
  end_ms : Int
  duration_ms : Int
  chunk_index : Nat
  lang : Option String
deriving DecidableEq

/-- One timed transcript segment as consumed by the chunker: a record with
`text`, `offset`, `duration` and an optional `lang` (the source accepts both
dicts and objects of this shape; missing `offset`/`duration` default to 0,
which we normalise away by making the fields total). -/
structure TranscriptSegment where
  text : String
  offset : Int
  duration : Int
  lang : Option String
deriving DecidableEq

/-- The `content` field of a Supadata transcript response: either a plain
string or a list of timed segments (absent/`None` content is the empty
list, matching `transcript_data.get("content", [])`). -/
inductive TranscriptContent where
  | plainText (s : String)
  | segments (segs : List TranscriptSegment)
deriving DecidableEq

/-- A Supadata transcript response: `content` plus a top-level `lang`
(defaulted to `"en"` by the source when absent). -/
structure TranscriptData where
  content : TranscriptContent
  lang : String
deriving DecidableEq

/-! ### Plain-text chunking (`TranscriptChunker._chunk_plain_text`)

The source computes timing with `words_per_ms = 150 / (60 * 1000)` and
`int(start_word / words_per_ms)`; with exact arithmetic this is
`start_word * 400` (and likewise for durations), which is how we embed it.

The source `while start_word < len(words)` loop is embedded with a fuel
argument; `fuel = words.length` always suffices when `1 ≤ max_words`
(proved below).  For `max_words = 0` the source loop would not terminate,
so no claim is made about that configuration. -/

/-- The next window start of `_chunk_plain_text`:
`max(start_word + max_words - overlap_words, end_word)` where
`end_word = min(start_word + max_words, len(words))`.  Subtraction is `Nat`
truncated subtraction, which agrees with Python here because the `max` with
`end_word` absorbs any would-be-negative value. -/
def next_start_word (max_words overlap_words len start_word : Nat) : Nat :=
  max (start_word + max_words - overlap_words) (min (start_word + max_words) len)

/-- Loop body of `_chunk_plain_text`, fuelled. -/
def chunk_plain_text_loop (max_words overlap_words : Nat) (words : List String)
    (lang : Option String) : Nat → Nat → Nat → List TranscriptChunk
  | 0, _, _ => []
  | fuel + 1, start_word, chunk_index =>
    if start_word < words.length then
      let end_word := min (start_word + max_words) words.length
      let chunk_words := (words.drop start_word).take (end_word - start_word)
      let chunk_text := String.intercalate " " chunk_words
      let start_ms : Int := if 0 < start_word then (start_word * 400 : Nat) else 0
      let duration_ms : Int := (chunk_words.length * 400 : Nat)
      { text := chunk_text, start_ms := start_ms, end_ms := start_ms + duration_ms,
        duration_ms := duration_ms, chunk_index := chunk_index, lang := lang } ::
        chunk_plain_text_loop max_words overlap_words words lang fuel
          (next_start_word max_words overlap_words words.length start_word) (chunk_index + 1)
    else []

/-- `TranscriptChunker._chunk_plain_text`. -/
def chunk_plain_text (max_words overlap_words : Nat) (text : String)
    (lang : Option String) : List TranscriptChunk :=
  let words := pySplit text
  chunk_plain_text_loop max_words overlap_words words lang words.length 0 0

/-! ### Segment merging (`TranscriptChunker._merge_small_segments`) -/

/-- `TranscriptChunker._is_natural_break`: the stripped text ends with one
of `.`, `!`, `?`, `...`, em dash, en dash. -/
def is_natural_break (text : String) : Bool :=
  let t := pyStrip text
  if t.isEmpty then false
  else [".", "!", "?", "...", "—", "–"].any (fun e => t.endsWith e)

/-- The flush condition of `_merge_small_segments`: accumulated word count
reached `min_words` or `max_words`, or the current segment ends at a
natural break. -/
def flush_trigger (min_words max_words wc : Nat) (text : String) : Bool :=
  decide (min_words ≤ wc) || decide (max_words ≤ wc) || is_natural_break text

/-- `TranscriptChunker._merge_buffer`: a singleton buffer is returned as-is;
two or more segments are merged (texts joined with a single space, offset
from the first, duration spanning to the last segment's end, language from
the first segment, defaulted to `"en"`).  The source returns `{}` for an
empty buffer; that branch is unreachable and embedded as a zero segment. -/
def merge_buffer (buffer : List TranscriptSegment) : TranscriptSegment :=
  match buffer with
  | [] => { text := "", offset := 0, duration := 0, lang := none }
  | [s] => s
  | s :: rest =>
    let l := (s :: rest).getLast (by simp)
    { text := String.intercalate " " ((s :: rest).map (fun seg => seg.text))
      offset := s.offset
      duration := (l.offset + l.duration) - s.offset
      lang := some (s.lang.getD "en") }

/-- The accumulation loop of `_merge_small_segments`, with the buffer and
its running word count made explicit. -/
def merge_loop (min_words max_words : Nat) :
    List TranscriptSegment → List TranscriptSegment → Nat → List TranscriptSegment
  | [], buf, _ => if buf.isEmpty then [] else [merge_buffer buf]
  | s :: rest, buf, wc =>
    let buf' := buf ++ [s]
    let wc' := wc + word_count s.text
    if flush_trigger min_words max_words wc' s.text then
      merge_buffer buf' :: merge_loop min_words max_words rest [] 0
    else
      merge_loop min_words max_words rest buf' wc'

/-- `TranscriptChunker._merge_small_segments`. -/
def merge_small_segments (min_words max_words : Nat)
    (segments : List TranscriptSegment) : List TranscriptSegment :=
  if segments.isEmpty then [] else merge_loop min_words max_words segments [] 0

/-- Specification mirror of `merge_loop` that returns the flushed buffer
groups themselves instead of their merges. -/
def group_loop (min_words max_words : Nat) :
    List TranscriptSegment → List TranscriptSegment → Nat → List (List TranscriptSegment)
  | [], buf, _ => if buf.isEmpty then [] else [buf]
  | s :: rest, buf, wc =>
    let buf' := buf ++ [s]
    let wc' := wc + word_count s.text
    if flush_trigger min_words max_words wc' s.text then
      buf' :: group_loop min_words max_words rest [] 0
    else
      group_loop min_words max_words rest buf' wc'

/-- The consecutive buffer groups that `_merge_small_segments` flushes. -/
def chunk_groups (min_words max_words : Nat)
    (segments : List TranscriptSegment) : List (List TranscriptSegment) :=
  if segments.isEmpty then [] else group_loop min_words max_words segments [] 0

/-- Accumulated word count of a buffer. -/
def buffer_wc (buf : List TranscriptSegment) : Nat :=
  (buf.map (fun s => word_count s.text)).sum

/-- The flush condition evaluated on a whole buffer group: word counts
summed over the group, natural break judged on the last segment. -/
def group_trigger (min_words max_words : Nat) (g : List TranscriptSegment) : Bool :=
  match g.getLast? with
  | none => false
  | some s => flush_trigger min_words max_words (buffer_wc g) s.text

/-! ### Top-level chunking (`TranscriptChunker.chunk_supadata_transcript`) -/

/-- The enumeration step of `chunk_supadata_transcript`: merged segments are
turned into `TranscriptChunk`s with consecutive indices, `start_ms` from the
segment offset, `end_ms = offset + duration`, and the segment language
defaulted to the transcript-level language. -/
def build_chunks (lang : String) : Nat → List TranscriptSegment → List TranscriptChunk
  | _, [] => []
  | i, seg :: rest =>
    { text := seg.text, start_ms := seg.offset, end_ms := seg.offset + seg.duration,
      duration_ms := seg.duration, chunk_index := i,
      lang := some (seg.lang.getD lang) } :: build_chunks lang (i + 1) rest

/-- `TranscriptChunker.chunk_supadata_transcript` (with the chunker's
configuration passed explicitly). -/
def chunk_supadata_transcript (min_words max_words overlap_words : Nat)
    (data : TranscriptData) : List TranscriptChunk :=
  match data.content with
  | .plainText s => chunk_plain_text max_words overlap_words s (some data.lang)
  | .segments segs =>
    if segs.isEmpty then []
    else build_chunks data.lang 0 (merge_small_segments min_words max_words segs)

/-! ### Identity building (`ChunkMetadataBuilder.build_hierarchical_id`)

The source computes `hashlib.md5(hierarchical_string.encode()).digest()` and
renders it via `str(uuid.UUID(bytes=hash_bytes))`.  We embed the library
calls concretely: UTF-8 encoding of the string, the MD5 algorithm itself
(RFC 1321) over byte lists, and the canonical 8-4-4-4-12 lowercase-hex UUID
rendering of the 16 digest bytes. -/

/-- UTF-8 encoding of one character (what Python `str.encode()` produces
per code point). -/
def utf8EncodeChar (c : Char) : List Nat :=
  let n := c.toNat
  if n < 0x80 then [n]
  else if n < 0x800 then
    [0xC0 ||| (n >>> 6), 0x80 ||| (n &&& 0x3F)]
  else if n < 0x10000 then
    [0xE0 ||| (n >>> 12), 0x80 ||| ((n >>> 6) &&& 0x3F), 0x80 ||| (n &&& 0x3F)]
  else
    [0xF0 ||| (n >>> 18), 0x80 ||| ((n >>> 12) &&& 0x3F),
     0x80 ||| ((n >>> 6) &&& 0x3F), 0x80 ||| (n &&& 0x3F)]

/-- Python `s.encode()`: the UTF-8 bytes of a string. -/
def utf8Encode (s : String) : List Nat :=
  (s.data.map utf8EncodeChar).flatten

/-- The 64 MD5 sine constants `K` of RFC 1321. -/
def md5K : List Nat :=
  [0xd76aa478, 0xe8c7b756, 0x242070db, 0xc1bdceee,
   0xf57c0faf, 0x4787c62a, 0xa8304613, 0xfd469501,
   0x698098d8, 0x8b44f7af, 0xffff5bb1, 0x895cd7be,
   0x6b901122, 0xfd987193, 0xa679438e, 0x49b40821,
   0xf61e2562, 0xc040b340, 0x265e5a51, 0xe9b6c7aa,
   0xd62f105d, 0x02441453, 0xd8a1e681, 0xe7d3fbc8,
   0x21e1cde6, 0xc33707d6, 0xf4d50d87, 0x455a14ed,
   0xa9e3e905, 0xfcefa3f8, 0x676f02d9, 0x8d2a4c8a,
   0xfffa3942, 0x8771f681, 0x6d9d6122, 0xfde5380c,
   0xa4beea44, 0x4bdecfa9, 0xf6bb4b60, 0xbebfbc70,
   0x289b7ec6, 0xeaa127fa, 0xd4ef3085, 0x04881d05,
   0xd9d4d039, 0xe6db99e5, 0x1fa27cf8, 0xc4ac5665,
   0xf4292244, 0x432aff97, 0xab9423a7, 0xfc93a039,
   0x655b59c3, 0x8f0ccc92, 0xffeff47d, 0x85845dd1,
   0x6fa87e4f, 0xfe2ce6e0, 0xa3014314, 0x4e0811a1,
   0xf7537e82, 0xbd3af235, 0x2ad7d2bb, 0xeb86d391]

/-- The MD5 per-round left-rotation amounts. -/
def md5S : List Nat :=
  [7, 12, 17, 22, 7, 12, 17, 22, 7, 12, 17, 22, 7, 12, 17, 22,
   5, 9, 14, 20, 5, 9, 14, 20, 5, 9, 14, 20, 5, 9, 14, 20,
   4, 11, 16, 23, 4, 11, 16, 23, 4, 11, 16, 23, 4, 11, 16, 23,
   6, 10, 15, 21, 6, 10, 15, 21, 6, 10, 15, 21, 6, 10, 15, 21]

/-- 32-bit left rotation on a value below `2 ^ 32`. -/
def rotl32 (x s : Nat) : Nat :=
  ((x <<< s) ||| (x >>> (32 - s))) % 4294967296

/-- The MD5 round function and message-word index for round `i`. -/
def md5FG (b c d i : Nat) : Nat × Nat :=
  if i < 16 then ((b &&& c) ||| ((b ^^^ 0xffffffff) &&& d), i)
  else if i < 32 then ((d &&& b) ||| ((d ^^^ 0xffffffff) &&& c), (5 * i + 1) % 16)
  else if i < 48 then (b ^^^ c ^^^ d, (3 * i + 5) % 16)
  else (c ^^^ (b ||| (d ^^^ 0xffffffff)), (7 * i) % 16)

/-- One MD5 round applied to the working state `(a, b, c, d)`. -/
def md5Round (m : List Nat) (st : Nat × Nat × Nat × Nat) (i : Nat) :
    Nat × Nat × Nat × Nat :=
  let a := st.1
  let b := st.2.1
  let c := st.2.2.1
  let d := st.2.2.2
  let fg := md5FG b c d i
  let f := (fg.1 + a + md5K.getD i 0 + m.getD fg.2 0) % 4294967296
  (d, (b + rotl32 f (md5S.getD i 0)) % 4294967296, b, c)

/-- Little-endian 32-bit word from four bytes. -/
def le32 (bs : List Nat) : Nat :=
  bs.getD 0 0 + 256 * bs.getD 1 0 + 65536 * bs.getD 2 0 + 16777216 * bs.getD 3 0

/-- A value below `2 ^ (8 * k)` rendered as `k` little-endian bytes. -/
def leBytes (k n : Nat) : List Nat :=
  (List.range k).map (fun i => (n >>> (8 * i)) % 256)

/-- MD5 compression of one 64-byte block into the chaining state. -/
def md5Block (st : Nat × Nat × Nat × Nat) (block : List Nat) :
    Nat × Nat × Nat × Nat :=
  let m := (List.range 16).map (fun j => le32 ((block.drop (4 * j)).take 4))
  let r := (List.range 64).foldl (md5Round m) st
  ((st.1 + r.1) % 4294967296, (st.2.1 + r.2.1) % 4294967296,
   (st.2.2.1 + r.2.2.1) % 4294967296, (st.2.2.2 + r.2.2.2) % 4294967296)

/-- MD5 padding: append `0x80`, zero-fill to 56 mod 64, then the original
bit length as a 64-bit little-endian quantity. -/
def md5Pad (msg : List Nat) : List Nat :=
  msg ++ (0x80 :: List.replicate ((119 - msg.length % 64) % 64) 0)
      ++ leBytes 8 ((msg.length * 8) % 18446744073709551616)

/-- The MD5 digest (16 bytes) of a byte list, per RFC 1321. -/
def md5Bytes (msg : List Nat) : List Nat :=
  let padded := md5Pad msg
  let blocks := (List.range (padded.length / 64)).map
    (fun i => (padded.drop (64 * i)).take 64)
  let st := blocks.foldl md5Block (0x67452301, 0xefcdab89, 0x98badcfe, 0x10325476)
  leBytes 4 st.1 ++ leBytes 4 st.2.1 ++ leBytes 4 st.2.2.1 ++ leBytes 4 st.2.2.2

/-- Lowercase hex digit. -/
def hexDigit (n : Nat) : Char :=
  if n < 10 then Char.ofNat (48 + n) else Char.ofNat (87 + n)

/-- Two lowercase hex digits of a byte. -/
def byteHex (b : Nat) : String :=
  String.mk [hexDigit (b / 16 % 16), hexDigit (b % 16)]

/-- Lowercase hex rendering of a byte list. -/
def bytesHex (bs : List Nat) : String :=
  String.join (bs.map byteHex)

/-- `str(uuid.UUID(bytes=bs))` for a 16-byte value: lowercase hex in the
canonical 8-4-4-4-12 grouping. -/
def uuidOfBytes (bs : List Nat) : String :=
  bytesHex (bs.take 4) ++ "-" ++ bytesHex ((bs.drop 4).take 2) ++ "-"
    ++ bytesHex ((bs.drop 6).take 2) ++ "-" ++ bytesHex ((bs.drop 8).take 2)
    ++ "-" ++ bytesHex (bs.drop 10)

/-- Python `"{:04d}".format i` for a natural number: the decimal digits,
left-padded with zeros to at least four characters (wider numbers keep all
their digits). -/
def zeroPad4 (i : Nat) : String :=
  let s := Nat.repr i
  if s.length < 4 then String.mk (List.replicate (4 - s.length) '0') ++ s else s

/-- The hierarchical string of `build_hierarchical_id` and
`build_chunk_payload`: channel id, video id and the zero-padded chunk
index, joined by colons. -/
def hierarchical_string (channel_id video_id : String) (chunk_index : Nat) : String :=
  channel_id ++ ":" ++ video_id ++ ":" ++ zeroPad4 chunk_index

/-- `ChunkMetadataBuilder.build_hierarchical_id`: the MD5 digest of the
UTF-8 bytes of the hierarchical string, rendered as a UUID string. -/
def build_hierarchical_id (channel_id video_id : String) (chunk_index : Nat) : String :=
  uuidOfBytes (md5Bytes (utf8Encode (hierarchical_string channel_id video_id chunk_index)))

/-! ### Lemmas about the merging loop -/

/-- Generic helper: taking at most the left part of an append. -/
lemma take_append_left {α : Type} (l₁ l₂ : List α) {k : Nat} (h : k ≤ l₁.length) :
    (l₁ ++ l₂).take k = l₁.take k := by
  induction l₁ generalizing k with
  | nil =>
    have : k = 0 := Nat.le_zero.mp h
    simp [this]
  | cons a t ih =>
    cases k with
    | zero => simp
    | succ k' =>
      simp only [List.cons_append, List.take_succ_cons]
      rw [ih (Nat.le_of_succ_le_succ h)]

lemma buffer_wc_append (buf : List TranscriptSegment) (s : TranscriptSegment) :
    buffer_wc (buf ++ [s]) = buffer_wc buf + word_count s.text := by
  simp [buffer_wc]

lemma group_trigger_concat (min_words max_words : Nat)
    (buf : List TranscriptSegment) (s : TranscriptSegment) :
    group_trigger min_words max_words (buf ++ [s])
      = flush_trigger min_words max_words (buffer_wc (buf ++ [s])) s.text := by
  simp [group_trigger, List.getLast?_concat]

/-- The merging loop is the group loop followed by merging each group. -/
lemma merge_loop_eq_groups (min_words max_words : Nat) :
    ∀ (xs buf : List TranscriptSegment) (wc : Nat),
      merge_loop min_words max_words xs buf wc
        = (group_loop min_words max_words xs buf wc).map merge_buffer := by
  intro xs
  induction xs with
  | nil =>
    intro buf wc
    by_cases h : buf.isEmpty <;> simp [merge_loop, group_loop, h]
  | cons s rest ih =>
    intro buf wc
    simp only [merge_loop, group_loop]
    by_cases h : flush_trigger min_words max_words (wc + word_count s.text) s.text <;>
      simp [h, ih]

/-- The flushed groups concatenate back to the buffer followed by the
remaining input: no segment is dropped, duplicated, split or reordered. -/
lemma group_loop_flatten (min_words max_words : Nat) :
    ∀ (xs buf : List TranscriptSegment) (wc : Nat),
      (group_loop min_words max_words xs buf wc).flatten = buf ++ xs := by
  intro xs
  induction xs with
  | nil =>
    intro buf wc
    by_cases h : buf.isEmpty
    · simp [group_loop, h, List.isEmpty_iff.mp h]
    · simp [group_loop, h]
  | cons s rest ih =>
    intro buf wc
    simp only [group_loop]
    by_cases h : flush_trigger min_words max_words (wc + word_count s.text) s.text
    · simp [h, ih]
    · simp [h, ih]

/-- Every flushed group is non-empty. -/
lemma group_loop_ne_nil (min_words max_words : Nat) :
    ∀ (xs buf : List TranscriptSegment) (wc : Nat),
      ∀ g ∈ group_loop min_words max_words xs buf wc, g ≠ [] := by
  intro xs
  induction xs with
  | nil =>
    intro buf wc g hg
    by_cases h : buf.isEmpty
    · simp [group_loop, h] at hg
    · simp only [group_loop, h, if_neg] at hg
      simp only [Bool.false_eq_true, if_false, List.mem_singleton] at hg
      subst hg
      exact fun hc => by simp [hc] at h
  | cons s rest ih =>
    intro buf wc g hg
    simp only [group_loop] at hg
    by_cases h : flush_trigger min_words max_words (wc + word_count s.text) s.text
    · simp only [h, if_pos, List.mem_cons] at hg
      rcases hg with rfl | hg
      · simp
      · exact ih [] 0 g hg
    · simp only [h, Bool.false_eq_true, if_false] at hg
      exact ih (buf ++ [s]) (wc + word_count s.text) g hg

/-- Every group except possibly the last satisfies the flush condition at
its end (it was flushed by the trigger, not by end of input). -/
lemma group_loop_dropLast_trigger (min_words max_words : Nat) :
    ∀ (xs buf : List TranscriptSegment) (wc : Nat), wc = buffer_wc buf →
      ∀ g ∈ (group_loop min_words max_words xs buf wc).dropLast,
        group_trigger min_words max_words g = true := by
  intro xs
  induction xs with
  | nil =>
    intro buf wc _ g hg
    by_cases h : buf.isEmpty <;> simp [group_loop, h] at hg
  | cons s rest ih =>
    intro buf wc hwc g hg
    simp only [group_loop] at hg
    by_cases h : flush_trigger min_words max_words (wc + word_count s.text) s.text
    · simp only [h, if_pos] at hg
      rcases hrest : group_loop min_words max_words rest [] 0 with _ | ⟨g₁, gs⟩
      · rw [hrest] at hg
        simp at hg
      · rw [hrest] at hg
        rw [List.dropLast_cons_of_ne_nil (by simp)] at hg
        rcases List.mem_cons.mp hg with rfl | hg'
        · rw [group_trigger_concat, buffer_wc_append, ← hwc]
          exact h
        · have := ih [] 0 rfl g
          rw [hrest] at this
          exact this hg'
    · simp only [h, Bool.false_eq_true, if_false] at hg
      exact ih (buf ++ [s]) (wc + word_count s.text)
        (by rw [buffer_wc_append, hwc]) g hg

/-- Within each flushed group, no proper non-empty leading part already
satisfies the flush condition: the loop flushes at the first trigger. -/
lemma group_loop_take_no_trigger (min_words max_words : Nat) :
    ∀ (xs buf : List TranscriptSegment) (wc : Nat), wc = buffer_wc buf →
      (∀ k, 0 < k → k ≤ buf.length →
        group_trigger min_words max_words (buf.take k) = false) →
      ∀ g ∈ group_loop min_words max_words xs buf wc,
        ∀ k, 0 < k → k < g.length →
          group_trigger min_words max_words (g.take k) = false := by
  intro xs
  induction xs with
  | nil =>
    intro buf wc _ hbuf g hg k hk hklt
    by_cases h : buf.isEmpty
    · simp [group_loop, h] at hg
    · simp only [group_loop, h, Bool.false_eq_true, if_false, List.mem_singleton] at hg
      subst hg
      exact hbuf k hk (Nat.le_of_lt hklt)
  | cons s rest ih =>
    intro buf wc hwc hbuf g hg k hk hklt
    simp only [group_loop] at hg
    by_cases h : flush_trigger min_words max_words (wc + word_count s.text) s.text
    · simp only [h, if_pos, List.mem_cons] at hg
      rcases hg with rfl | hg'
      · -- g = buf ++ [s]; a proper leading part stays inside buf
        have hlen : k ≤ buf.length := by
          have := hklt
          simp only [List.length_append, List.length_singleton] at this
          omega
        rw [take_append_left buf [s] hlen]
        exact hbuf k hk hlen
      · refine ih [] 0 rfl ?_ g hg' k hk hklt
        intro j hj hj0
        exact absurd (Nat.lt_of_lt_of_le hj (by simpa using hj0)) (lt_irrefl 0)
    · simp only [h, Bool.false_eq_true, if_false] at hg
      refine ih (buf ++ [s]) (wc + word_count s.text)
        (by rw [buffer_wc_append, hwc]) ?_ g hg k hk hklt
      intro j hj hjle
      rcases Nat.lt_or_ge j (buf.length + 1) with hlt | hge
      · rcases Nat.lt_or_ge j buf.length with hlt' | hge'
        · rw [take_append_left buf [s] (Nat.le_of_lt hlt')]
          exact hbuf j hj (Nat.le_of_lt hlt')
        · have : j = buf.length := by omega
          subst this
          rw [take_append_left buf [s] (Nat.le_refl _)]
          rcases Nat.eq_zero_or_pos buf.length with h0 | hpos
          · omega
          · exact hbuf buf.length hpos (Nat.le_refl _)
      · have : j = buf.length + 1 := by
          simp only [List.length_append, List.length_singleton] at hjle
          omega
        subst this
        rw [show buf.length + 1 = (buf ++ [s]).length by simp, List.take_length,
          group_trigger_concat, buffer_wc_append, ← hwc]
        exact Bool.not_eq_true _ ▸ (by simpa using h)

/-- C6: In the segmented chunker, the buffer is flushed into one merged
chunk exactly when the accumulated word count reaches `min_words` or
`max_words`, or the current segment ends at a natural break character: the
output is the group-wise merge of a partition of the input into consecutive
non-empty groups; every group but possibly the last satisfies the flush
condition at its end and no earlier point; a trailing non-empty buffer is
flushed as a final chunk (it appears in the partition) even when under
`min_words`; and a segment whose own word count already exceeds `max_words`
arriving at a fresh buffer is emitted as one chunk, unsplit. -/
theorem merge_small_segments_spec (min_words max_words : Nat)
    (segments : List TranscriptSegment) :
    merge_small_segments min_words max_words segments
      = (chunk_groups min_words max_words segments).map merge_buffer
  ∧ (chunk_groups min_words max_words segments).flatten = segments
  ∧ (∀ g ∈ chunk_groups min_words max_words segments, g ≠ [])
  ∧ (∀ g ∈ (chunk_groups min_words max_words segments).dropLast,
      group_trigger min_words max_words g = true)
  ∧ (∀ g ∈ chunk_groups min_words max_words segments,
      ∀ k, 0 < k → k < g.length →
        group_trigger min_words max_words (g.take k) = false)
  ∧ (∀ s rest, max_words < word_count s.text →
      merge_small_segments min_words max_words (s :: rest)
        = s :: merge_small_segments min_words max_words rest) := by
  refine ⟨?_, ?_, ?_, ?_, ?_, ?_⟩
  · by_cases h : segments.isEmpty
    · simp [merge_small_segments, chunk_groups, h]
    · simp only [merge_small_segments, chunk_groups, h, Bool.false_eq_true, if_false]
      exact merge_loop_eq_groups min_words max_words segments [] 0
  · by_cases h : segments.isEmpty
    · simp [chunk_groups, h, List.isEmpty_iff.mp h]
    · simp only [chunk_groups, h, Bool.false_eq_true, if_false]
      simpa using group_loop_flatten min_words max_words segments [] 0
  · intro g hg
    by_cases h : segments.isEmpty
    · simp [chunk_groups, h] at hg
    · simp only [chunk_groups, h, Bool.false_eq_true, if_false] at hg
      exact group_loop_ne_nil min_words max_words segments [] 0 g hg
  · intro g hg
    by_cases h : segments.isEmpty
    · simp [chunk_groups, h] at hg
    · simp only [chunk_groups, h, Bool.false_eq_true, if_false] at hg
      exact group_loop_dropLast_trigger min_words max_words segments [] 0
        (by simp [buffer_wc]) g hg
  · intro g hg k hk hklt
    by_cases h : segments.isEmpty
    · simp [chunk_groups, h] at hg
    · simp only [chunk_groups, h, Bool.false_eq_true, if_false] at hg
      refine group_loop_take_no_trigger min_words max_words segments [] 0
        (by simp [buffer_wc]) ?_ g hg k hk hklt
      intro j hj hj0
      exact absurd (Nat.lt_of_lt_of_le hj (by simpa using hj0)) (lt_irrefl 0)
  · intro s rest hbig
    have htrig : flush_trigger min_words max_words (0 + word_count s.text) s.text
        = true := by
      simp only [flush_trigger, Nat.zero_add]
      have : max_words ≤ word_count s.text := Nat.le_of_lt hbig
      simp [this]
    simp only [merge_small_segments, List.isEmpty_cons, Bool.false_eq_true, if_false,
      merge_loop, htrig, if_pos, List.nil_append]
    rcases rest with _ | ⟨r, rs⟩
    · simp [merge_loop, merge_buffer]
    · simp [merge_buffer]

/-- Witness for C6: on the three-sentence demo transcript with
`min_words = 2`, the first group is flushed by the trigger, and an
oversized first segment with `max_words = 4` is emitted unsplit as its own
chunk. -/
theorem merge_small_segments_spec_witness :
    group_trigger 2 300 [⟨"Hello world.", 0, 1000, none⟩] = true
  ∧ merge_small_segments 2 4
      (⟨"one two three four five", 0, 500, none⟩ ::
        [⟨"Hello world.", 0, 1000, none⟩, ⟨"This is a test.", 1000, 1500, none⟩])
      = ⟨"one two three four five", 0, 500, none⟩ ::
          merge_small_segments 2 4
            [⟨"Hello world.", 0, 1000, none⟩, ⟨"This is a test.", 1000, 1500, none⟩] := by
  constructor
  · exact (merge_small_segments_spec 2 300
      [⟨"Hello world.", 0, 1000, none⟩, ⟨"This is a test.", 1000, 1500, none⟩,
       ⟨"Final segment here.", 2500, 1200, none⟩]).2.2.2.1
      [⟨"Hello world.", 0, 1000, none⟩] (by decide)
  · exact (merge_small_segments_spec 2 4 []).2.2.2.2.2
      ⟨"one two three four five", 0, 500, none⟩
      [⟨"Hello world.", 0, 1000, none⟩, ⟨"This is a test.", 1000, 1500, none⟩]
      (by decide)

/-! ### Lemmas about the plain-text loop -/

/-- Progress: when the window is non-degenerate the next start strictly
advances past the current start, and never regresses before the current
window's end. -/
lemma next_start_word_progress (max_words overlap_words len start_word : Nat)
    (hmax : 1 ≤ max_words) (h : start_word < len) :
    start_word < next_start_word max_words overlap_words len start_word
      ∧ min (start_word + max_words) len
          ≤ next_start_word max_words overlap_words len start_word := by
  unfold next_start_word
  omega

/-- On a full window, the next start is exactly the current window's end:
the windows are adjacent and share no words. -/
lemma next_start_word_full (max_words overlap_words len start_word : Nat)
    (h : start_word + max_words ≤ len) :
    next_start_word max_words overlap_words len start_word
      = start_word + max_words := by
  unfold next_start_word
  omega

/-- The fuelled loop is fuel-independent once the fuel covers the remaining
words: the source `while` loop terminates on this domain. -/
lemma chunk_plain_text_loop_fuel (max_words overlap_words : Nat)
    (words : List String) (lang : Option String) (hmax : 1 ≤ max_words) :
    ∀ (f₁ f₂ start_word chunk_index : Nat),
      words.length - start_word ≤ f₁ → words.length - start_word ≤ f₂ →
      chunk_plain_text_loop max_words overlap_words words lang f₁ start_word chunk_index
        = chunk_plain_text_loop max_words overlap_words words lang f₂ start_word
            chunk_index := by
  intro f₁
  induction f₁ with
  | zero =>
    intro f₂ start_word chunk_index h₁ h₂
    have hge : words.length ≤ start_word := by omega
    cases f₂ with
    | zero => rfl
    | succ f₂' =>
      simp only [chunk_plain_text_loop]
      rw [if_neg (by omega)]
  | succ f₁' ih =>
    intro f₂ start_word chunk_index h₁ h₂
    cases f₂ with
    | zero =>
      have hge : words.length ≤ start_word := by omega
      simp only [chunk_plain_text_loop]
      rw [if_neg (by omega)]
    | succ f₂' =>
      simp only [chunk_plain_text_loop]
      by_cases hlt : start_word < words.length
      · rw [if_pos hlt, if_pos hlt]
        have hprog := next_start_word_progress max_words overlap_words
          words.length start_word hmax hlt
        have hrec := ih f₂'
          (next_start_word max_words overlap_words words.length start_word)
          (chunk_index + 1) (by omega) (by omega)
        simp only [hrec]
      · rw [if_neg hlt, if_neg hlt]

/-- The loop emits at most one chunk per remaining word. -/
lemma chunk_plain_text_loop_length (max_words overlap_words : Nat)
    (words : List String) (lang : Option String) (hmax : 1 ≤ max_words) :
    ∀ (fuel start_word chunk_index : Nat),
      (chunk_plain_text_loop max_words overlap_words words lang fuel start_word
          chunk_index).length ≤ words.length - start_word := by
  intro fuel
  induction fuel with
  | zero => intro start_word chunk_index; simp [chunk_plain_text_loop]
  | succ f ih =>
    intro start_word chunk_index
    simp only [chunk_plain_text_loop]
    by_cases hlt : start_word < words.length
    · rw [if_pos hlt]
      have hprog := next_start_word_progress max_words overlap_words
        words.length start_word hmax hlt
      have := ih (next_start_word max_words overlap_words words.length start_word)
        (chunk_index + 1)
      simp only [List.length_cons]
      omega
    · rw [if_neg hlt]
      simp

/-- Per-chunk invariants of the plain-text loop: the end timestamp is the
start plus the duration, durations are non-negative, and each chunk holds
at most `max_words` words. -/
lemma chunk_plain_text_loop_invariants (max_words overlap_words : Nat)
    (words : List String) (lang : Option String) :
    ∀ (fuel start_word chunk_index : Nat),
      ∀ c ∈ chunk_plain_text_loop max_words overlap_words words lang fuel start_word
          chunk_index,
        c.end_ms = c.start_ms + c.duration_ms ∧ 0 ≤ c.duration_ms := by
  intro fuel
  induction fuel with
  | zero => intro start_word chunk_index c hc; simp [chunk_plain_text_loop] at hc
  | succ f ih =>
    intro start_word chunk_index c hc
    simp only [chunk_plain_text_loop] at hc
    by_cases hlt : start_word < words.length
    · rw [if_pos hlt] at hc
      rcases List.mem_cons.mp hc with rfl | hc'
      · exact ⟨rfl, Int.natCast_nonneg _⟩
      · exact ih _ _ c hc'
    · rw [if_neg hlt] at hc
      simp at hc

/-- The chunk indices emitted by the loop are consecutive from the starting
index. -/
lemma chunk_plain_text_loop_indices (max_words overlap_words : Nat)
    (words : List String) (lang : Option String) :
    ∀ (fuel start_word chunk_index : Nat),
      (chunk_plain_text_loop max_words overlap_words words lang fuel start_word
          chunk_index).map (fun c => c.chunk_index)
        = List.range' chunk_index
            (chunk_plain_text_loop max_words overlap_words words lang fuel start_word
              chunk_index).length := by
  intro fuel
  induction fuel with
  | zero => intro start_word chunk_index; simp [chunk_plain_text_loop]
  | succ f ih =>
    intro start_word chunk_index
    simp only [chunk_plain_text_loop]
    by_cases hlt : start_word < words.length
    · rw [if_pos hlt]
      simp only [List.map_cons, List.length_cons, List.range'_succ]
      rw [ih]
    · rw [if_neg hlt]
      simp

/-- C10: the plain-text chunking loop terminates for every input text and
every configuration with `max_words ≥ 1` (including
`overlap_words ≥ max_words`): the next window start is clamped to at least
the current window's end and strictly past the current start, so the loop's
value is fuel-independent once the fuel covers the word count, and at most
one chunk per word is emitted. -/
theorem plain_text_chunking_terminates (max_words overlap_words : Nat)
    (text : String) (lang : Option String) (hmax : 1 ≤ max_words) :
    (∀ len start_word, start_word < len →
        start_word < next_start_word max_words overlap_words len start_word
      ∧ min (start_word + max_words) len
          ≤ next_start_word max_words overlap_words len start_word)
  ∧ (∀ fuel, (pySplit text).length ≤ fuel →
      chunk_plain_text_loop max_words overlap_words (pySplit text) lang fuel 0 0
        = chunk_plain_text max_words overlap_words text lang)
  ∧ (chunk_plain_text max_words overlap_words text lang).length
      ≤ (pySplit text).length := by
  refine ⟨?_, ?_, ?_⟩
  · intro len start_word h
    exact next_start_word_progress max_words overlap_words len start_word hmax h
  · intro fuel hfuel
    unfold chunk_plain_text
    exact chunk_plain_text_loop_fuel max_words overlap_words (pySplit text) lang hmax
      fuel (pySplit text).length 0 0 (by omega) (by omega)
  · unfold chunk_plain_text
    simpa using chunk_plain_text_loop_length max_words overlap_words (pySplit text)
      lang hmax (pySplit text).length 0 0

/-- Witness for C10 at a concrete text and configuration with
`overlap_words > max_words`. -/
theorem plain_text_chunking_terminates_witness :
    (0 < next_start_word 2 5 6 0 ∧ min (0 + 2) 6 ≤ next_start_word 2 5 6 0)
  ∧ chunk_plain_text_loop 2 5 (pySplit "a b c d e f") (some "en") 50 0 0
      = chunk_plain_text 2 5 "a b c d e f" (some "en")
  ∧ (chunk_plain_text 2 5 "a b c d e f" (some "en")).length
      ≤ (pySplit "a b c d e f").length := by
  have h := plain_text_chunking_terminates 2 5 "a b c d e f" (some "en") (by decide)
  exact ⟨by simpa using h.1 6 0 (by decide), h.2.1 50 (by decide), h.2.2⟩

set_option maxRecDepth 8000 in
/-- C2 (bug evidence): the plain-text chunker never overlaps consecutive
chunks.  On a full window the next start is clamped to exactly the window
end, so the `overlap_words` parameter has no effect; concretely, on 50
words `"0" … "49"` with `max_words = 15, overlap_words = 5` the chunker
produces 4 chunks whose word windows are disjoint: chunk 1's first 5 words
differ from chunk 0's last 5 words. -/
theorem plain_text_chunks_do_not_overlap :
    (∀ max_words overlap_words len start_word,
        start_word + max_words ≤ len →
        next_start_word max_words overlap_words len start_word
          = start_word + max_words)
  ∧ ((chunk_plain_text 15 5
        (String.intercalate " " ((List.range 50).map (fun n => Nat.repr n)))
        (some "en")).length = 4)
  ∧ (((chunk_plain_text 15 5
        (String.intercalate " " ((List.range 50).map (fun n => Nat.repr n)))
        (some "en")).get? 1).map (fun c => (pySplit c.text).take 5)
      ≠ ((chunk_plain_text 15 5
        (String.intercalate " " ((List.range 50).map (fun n => Nat.repr n)))
        (some "en")).get? 0).map (fun c => (pySplit c.text).drop 10)) := by
  refine ⟨?_, ?_, ?_⟩
  · intro max_words overlap_words len start_word h
    exact next_start_word_full max_words overlap_words len start_word h
  · decide
  · decide

/-- Witness for C2's universally-quantified part at the configuration of
the spec's 1000-word scenario: from word 0 with `max_words = 300`,
`overlap_words = 20` on 1000 words, the next window starts at word 300, not
280. -/
theorem plain_text_chunks_do_not_overlap_witness :
    next_start_word 300 20 1000 0 = 0 + 300 :=
  plain_text_chunks_do_not_overlap.1 300 20 1000 0 (by decide)

/-! ### Chunk invariants (C7) -/

/-- Well-formedness of a transcript input as assumed by C7: segments are
listed in time order with non-negative offsets and durations (plain text
carries no timing and needs no assumption). -/
def WellFormedContent : TranscriptContent → Prop
  | .plainText _ => True
  | .segments segs =>
      segs.Pairwise (fun a b => a.offset ≤ b.offset)
        ∧ ∀ s ∈ segs, 0 ≤ s.offset ∧ 0 ≤ s.duration

lemma build_chunks_invariants (lang : String) :
    ∀ (i : Nat) (segs : List TranscriptSegment),
      ∀ c ∈ build_chunks lang i segs,
        c.end_ms = c.start_ms + c.duration_ms
          ∧ ∃ seg ∈ segs, c.duration_ms = seg.duration := by
  intro i segs
  induction segs generalizing i with
  | nil => intro c hc; simp [build_chunks] at hc
  | cons s rest ih =>
    intro c hc
    simp only [build_chunks, List.mem_cons] at hc
    rcases hc with rfl | hc'
    · exact ⟨rfl, s, List.mem_cons_self s rest, rfl⟩
    · obtain ⟨he, seg, hseg, hd⟩ := ih (i + 1) c hc'
      exact ⟨he, seg, List.mem_cons_of_mem s hseg, hd⟩

lemma build_chunks_length (lang : String) :
    ∀ (i : Nat) (segs : List TranscriptSegment),
      (build_chunks lang i segs).length = segs.length := by
  intro i segs
  induction segs generalizing i with
  | nil => simp [build_chunks]
  | cons s rest ih => simp [build_chunks, ih]

lemma build_chunks_indices (lang : String) :
    ∀ (i : Nat) (segs : List TranscriptSegment),
      (build_chunks lang i segs).map (fun c => c.chunk_index)
        = List.range' i segs.length := by
  intro i segs
  induction segs generalizing i with
  | nil => simp [build_chunks]
  | cons s rest ih =>
    simp only [build_chunks, List.map_cons, List.length_cons, List.range'_succ]
    rw [ih]

/-- Every merged segment has a non-negative duration when the input
segments are time-ordered with non-negative offsets and durations. -/
lemma merge_small_segments_duration_nonneg (min_words max_words : Nat)
    (segs : List TranscriptSegment)
    (hpw : segs.Pairwise (fun a b => a.offset ≤ b.offset))
    (hnn : ∀ s ∈ segs, 0 ≤ s.offset ∧ 0 ≤ s.duration) :
    ∀ m ∈ merge_small_segments min_words max_words segs, 0 ≤ m.duration := by
  intro m hm
  obtain ⟨hmap, hflat, hne, -, -, -⟩ := merge_small_segments_spec min_words max_words segs
  rw [hmap] at hm
  obtain ⟨g, hg, rfl⟩ := List.mem_map.mp hm
  have hsub : g.Sublist segs := by
    rw [← hflat]
    exact List.sublist_flatten_of_mem hg
  have hgne := hne g hg
  rcases g with _ | ⟨a, rest⟩
  · exact absurd rfl hgne
  rcases rest with _ | ⟨b, rs⟩
  · have : a ∈ segs := hsub.subset (List.mem_cons_self a [])
    simpa [merge_buffer] using (hnn a this).2
  · have hps : (a :: b :: rs).Pairwise (fun x y => x.offset ≤ y.offset) :=
      List.Pairwise.sublist hsub hpw
    have hlast_mem : (a :: b :: rs).getLast (by simp) ∈ a :: b :: rs :=
      List.getLast_mem _
    have hoff : a.offset ≤ ((a :: b :: rs).getLast (by simp)).offset := by
      rcases List.mem_cons.mp hlast_mem with heq | hmem
      · rw [heq]
      · exact List.rel_of_pairwise_cons hps hmem
    have hdur : 0 ≤ ((a :: b :: rs).getLast (by simp)).duration :=
      (hnn _ (hsub.subset hlast_mem)).2
    simp only [merge_buffer]
    omega

/-- C7: for every transcript (segmented in time order with non-negative
offsets and durations, or plain text), every produced chunk satisfies
`end_ms = start_ms + duration_ms` with `duration_ms ≥ 0`, the chunk indices
are exactly `0, 1, 2, …` with no gaps, and an empty transcript produces an
empty chunk list. -/
theorem chunk_invariants (min_words max_words overlap_words : Nat)
    (data : TranscriptData) (hmax : 1 ≤ max_words)
    (hwf : WellFormedContent data.content) :
    (∀ c ∈ chunk_supadata_transcript min_words max_words overlap_words data,
        c.end_ms = c.start_ms + c.duration_ms ∧ 0 ≤ c.duration_ms)
  ∧ ((chunk_supadata_transcript min_words max_words overlap_words data).map
        (fun c => c.chunk_index)
      = List.range
          (chunk_supadata_transcript min_words max_words overlap_words data).length)
  ∧ (data.content = .segments [] →
      chunk_supadata_transcript min_words max_words overlap_words data = [])
  ∧ (data.content = .plainText "" →
      chunk_supadata_transcript min_words max_words overlap_words data = []) := by
  rcases hdata : data.content with s | segs
  · refine ⟨?_, ?_, ?_, ?_⟩
    · intro c hc
      simp only [chunk_supadata_transcript, hdata] at hc
      exact chunk_plain_text_loop_invariants max_words overlap_words (pySplit s)
        (some data.lang) (pySplit s).length 0 0 c hc
    · simp only [chunk_supadata_transcript, hdata, chunk_plain_text]
      rw [List.range_eq_range']
      exact chunk_plain_text_loop_indices max_words overlap_words (pySplit s)
        (some data.lang) (pySplit s).length 0 0
    · intro h
      simp at h
    · intro h
      injection h with h'
      subst h'
      simp [chunk_supadata_transcript, hdata, chunk_plain_text, pySplit, pySplitAux,
        chunk_plain_text_loop]
  · rw [hdata] at hwf
    obtain ⟨hpw, hnn⟩ := hwf
    refine ⟨?_, ?_, ?_, ?_⟩
    · intro c hc
      simp only [chunk_supadata_transcript, hdata] at hc
      by_cases hemp : segs.isEmpty
      · simp [hemp] at hc
      · rw [if_neg (by simp [hemp])] at hc
        obtain ⟨he, seg, hseg, hd⟩ := build_chunks_invariants data.lang 0
          (merge_small_segments min_words max_words segs) c hc
        refine ⟨he, ?_⟩
        rw [hd]
        exact merge_small_segments_duration_nonneg min_words max_words segs hpw hnn
          seg hseg
    · simp only [chunk_supadata_transcript, hdata]
      by_cases hemp : segs.isEmpty
      · simp [hemp]
      · rw [if_neg (by simp [hemp])]
        rw [List.range_eq_range', build_chunks_indices, build_chunks_length]
    · intro h
      injection h with h'
      subst h'
      simp [chunk_supadata_transcript, hdata]
    · intro h
      simp at h

/-- Witness for C7 on a concrete two-segment transcript. -/
theorem chunk_invariants_witness :
    (∀ c ∈ chunk_supadata_transcript 2 300 20
        ⟨.segments [⟨"Hello world.", 0, 1000, none⟩,
          ⟨"This is a test.", 1000, 1500, some "fr"⟩], "en"⟩,
        c.end_ms = c.start_ms + c.duration_ms ∧ 0 ≤ c.duration_ms)
  ∧ ((chunk_supadata_transcript 2 300 20
        ⟨.segments [⟨"Hello world.", 0, 1000, none⟩,
          ⟨"This is a test.", 1000, 1500, some "fr"⟩], "en"⟩).map
        (fun c => c.chunk_index)
      = List.range (chunk_supadata_transcript 2 300 20
          ⟨.segments [⟨"Hello world.", 0, 1000, none⟩,
            ⟨"This is a test.", 1000, 1500, some "fr"⟩], "en"⟩).length) := by
  have h := chunk_invariants 2 300 20
    ⟨.segments [⟨"Hello world.", 0, 1000, none⟩,
      ⟨"This is a test.", 1000, 1500, some "fr"⟩], "en"⟩
    (by decide) (by exact ⟨by decide, by decide⟩)
  exact ⟨h.1, h.2.1⟩

/-! ### Retry with exponential backoff (`retry_utils.py`)

Errors are modelled as a kind (the exception class, compared atomically in
place of `isinstance`) plus an optional HTTP status code carried by an
attached response.  Delays are exact rationals; the `random.uniform`
jitter draw is an oracle parameter (one sample per attempt index). -/

/-- A Python exception as classified by `is_retryable_error`. -/
structure PyError where
  kind : String
  statusCode : Option Nat
deriving DecidableEq

/-- The `RetryConfig` class (defaults: 3 retries, base 1.0s, max 60.0s,
factor 2.0, jitter on, status codes 429/500/502/503/504, connection and
timeout errors retryable). -/
structure RetryConfig where
  max_retries : Nat
  base_delay : ℚ
  max_delay : ℚ
  exponential_factor : ℚ
  jitter : Bool
  retryable_status_codes : List Nat
  retryable_exceptions : List String
deriving DecidableEq

/-- The default `RetryConfig()`. -/
def defaultRetryConfig : RetryConfig :=
  { max_retries := 3, base_delay := 1, max_delay := 60, exponential_factor := 2,
    jitter := true, retryable_status_codes := [429, 500, 502, 503, 504],
    retryable_exceptions := ["ConnectionError", "TimeoutError"] }

/-- `is_retryable_error`: retryable exception kinds first, else the status
code of an attached response, else not retryable. -/
def is_retryable_error (e : PyError) (config : RetryConfig) : Bool :=
  if config.retryable_exceptions.contains e.kind then true
  else
    match e.statusCode with
    | some code => config.retryable_status_codes.contains code
    | none => false

/-- `calculate_delay`: capped exponential backoff, plus the jitter sample
when jitter is enabled, floored at zero.  `jitterSample` stands for the
`random.uniform(-delay * 0.25, delay * 0.25)` draw. -/
def calculate_delay (attempt : Nat) (config : RetryConfig) (jitterSample : ℚ) : ℚ :=
  let delay := min (config.base_delay * config.exponential_factor ^ attempt)
    config.max_delay
  let delay := if config.jitter then delay + jitterSample else delay
  max 0 delay

/-- The outcome of one invocation of the wrapped function. -/
inductive AttemptResult (α : Type) where
  | ok (value : α)
  | err (e : PyError)

/-- The observable behaviour of one run of the retry wrapper. -/
structure RetryTrace (α : Type) where
  result : Except PyError α
  attemptsMade : Nat
  sleeps : List ℚ

/-- The `for attempt in range(config.max_retries + 1)` loop of
`retry_with_exponential_backoff`, with `remaining = max_retries - attempt`
spare iterations; `op i` is the outcome of the `i`-th invocation and
`js i` the jitter sample drawn on attempt `i`. -/
def retry_go {α : Type} (config : RetryConfig) (op : Nat → AttemptResult α)
    (js : Nat → ℚ) : Nat → Nat → List ℚ → RetryTrace α
  | 0, attempt, sleeps =>
    match op attempt with
    | .ok v => ⟨.ok v, attempt + 1, sleeps.reverse⟩
    | .err e => ⟨.error e, attempt + 1, sleeps.reverse⟩
  | r + 1, attempt, sleeps =>
    match op attempt with
    | .ok v => ⟨.ok v, attempt + 1, sleeps.reverse⟩
    | .err e =>
      if is_retryable_error e config then
        retry_go config op js r (attempt + 1)
          (calculate_delay attempt config (js attempt) :: sleeps)
      else ⟨.error e, attempt + 1, sleeps.reverse⟩

/-- `retry_with_exponential_backoff(config)(func)`: run the retry loop from
attempt 0. -/
def retry_run {α : Type} (config : RetryConfig) (op : Nat → AttemptResult α)
    (js : Nat → ℚ) : RetryTrace α :=
  retry_go config op js config.max_retries 0 []

/-- Exhaustion: if every attempt up to index `remaining + attempt` fails and
all but the last failure are retryable, the loop re-raises the error of the
final attempt unchanged and makes one invocation per attempt. -/
lemma retry_go_exhaustion {α : Type} (config : RetryConfig)
    (op : Nat → AttemptResult α) (js : Nat → ℚ) (es : Nat → PyError) :
    ∀ (remaining attempt : Nat) (sleeps : List ℚ),
      (∀ i, attempt ≤ i → i ≤ attempt + remaining → op i = .err (es i)) →
      (∀ i, attempt ≤ i → i < attempt + remaining →
        is_retryable_error (es i) config = true) →
      (retry_go config op js remaining attempt sleeps).result
          = .error (es (attempt + remaining))
        ∧ (retry_go config op js remaining attempt sleeps).attemptsMade
            = attempt + remaining + 1
        ∧ (retry_go config op js remaining attempt sleeps).sleeps
            = sleeps.reverse
              ++ (List.range' attempt remaining).map
                  (fun i => calculate_delay i config (js i)) := by
  intro remaining
  induction remaining with
  | zero =>
    intro attempt sleeps hop _
    have h0 : op attempt = .err (es attempt) :=
      hop attempt (Nat.le_refl _) (by omega)
    simp [retry_go, h0]
  | succ r ih =>
    intro attempt sleeps hop hretry
    have h0 : op attempt = .err (es attempt) :=
      hop attempt (Nat.le_refl _) (by omega)
    have hr : is_retryable_error (es attempt) config = true :=
      hretry attempt (Nat.le_refl _) (by omega)
    have hrec := ih (attempt + 1)
      (calculate_delay attempt config (js attempt) :: sleeps)
      (fun i h1 h2 => hop i (by omega) (by omega))
      (fun i h1 h2 => hretry i (by omega) (by omega))
    simp only [retry_go, h0, hr, if_pos]
    have harith : attempt + 1 + r = attempt + (r + 1) := by omega
    rw [harith] at hrec
    refine ⟨hrec.1, by rw [hrec.2.1], ?_⟩
    rw [hrec.2.2]
    simp [List.range'_succ]

/-- C4: an operation failing with a non-retryable error is attempted
exactly once, its error propagating unchanged with no sleeping; and when
all attempts fail (retryably, until the final attempt), the retry wrapper
makes exactly `max_retries + 1` invocations and re-raises the error of the
last attempt unchanged. -/
theorem retry_error_propagation {α : Type} (config : RetryConfig)
    (op : Nat → AttemptResult α) (js : Nat → ℚ) (es : Nat → PyError) :
    (∀ e, op 0 = .err e → is_retryable_error e config = false →
      retry_run config op js = ⟨.error e, 1, []⟩)
  ∧ ((∀ i, i ≤ config.max_retries → op i = .err (es i)) →
      (∀ i, i < config.max_retries → is_retryable_error (es i) config = true) →
      (retry_run config op js).result = .error (es config.max_retries)
        ∧ (retry_run config op js).attemptsMade = config.max_retries + 1) := by
  constructor
  · intro e h0 hnr
    unfold retry_run
    cases hmr : config.max_retries with
    | zero => simp [retry_go, h0]
    | succ r => simp [retry_go, h0, hnr]
  · intro hop hretry
    have h := retry_go_exhaustion config op js es config.max_retries 0 []
      (fun i h1 h2 => hop i (by omega))
      (fun i h1 h2 => hretry i (by omega))
    exact ⟨by simpa using h.1, by simpa using h.2.1⟩

/-- Witness for C4: a non-retryable 404 error aborts after one attempt; a
connection error that persists exhausts all four default attempts and the
final error is re-raised. -/
theorem retry_error_propagation_witness :
    retry_run defaultRetryConfig
        (fun _ => (.err ⟨"HTTPError", some 404⟩ : AttemptResult Nat)) (fun _ => 0)
      = ⟨.error ⟨"HTTPError", some 404⟩, 1, []⟩
  ∧ (retry_run defaultRetryConfig
        (fun _ => (.err ⟨"ConnectionError", none⟩ : AttemptResult Nat)) (fun _ => 0)).result
      = .error ⟨"ConnectionError", none⟩
  ∧ (retry_run defaultRetryConfig
        (fun _ => (.err ⟨"ConnectionError", none⟩ : AttemptResult Nat)) (fun _ => 0)).attemptsMade
      = 4 := by
  have h1 := (retry_error_propagation defaultRetryConfig
    (fun _ => (.err ⟨"HTTPError", some 404⟩ : AttemptResult Nat)) (fun _ => 0)
    (fun _ => ⟨"HTTPError", some 404⟩)).1 ⟨"HTTPError", some 404⟩ rfl (by decide)
  have h2 := (retry_error_propagation defaultRetryConfig
    (fun _ => (.err ⟨"ConnectionError", none⟩ : AttemptResult Nat)) (fun _ => 0)
    (fun _ => ⟨"ConnectionError", none⟩)).2 (fun i _ => rfl) (fun i _ => by decide)
  exact ⟨h1, h2.1, h2.2⟩

/-- A retry profile with factor 3/2 and jitter enabled, used to exhibit a
decreasing jittered delay sequence. -/
def jitterDemoConfig : RetryConfig :=
  { max_retries := 2, base_delay := 8, max_delay := 60, exponential_factor := 3 / 2,
    jitter := true, retryable_status_codes := [429, 500, 502, 503, 504],
    retryable_exceptions := ["ConnectionError", "TimeoutError"] }

/-- Admissible `random.uniform(-0.25 * delay, 0.25 * delay)` draws: `+25%`
of the capped delay 8 on the first attempt, `-25%` of the capped delay 12
on the second. -/
def jitterDemoSamples : Nat → ℚ :=
  fun i => if i = 0 then 2 else -3

/-- C5 counterexample: with jitter enabled the successive sleep delays are
not non-decreasing.  With `base_delay = 8`, `exponential_factor = 3/2`,
`max_delay = 60` and in-range jitter draws (`+25%` then `-25%` of the
capped exponential delay), an operation failing retryably on every attempt
sleeps `10` then `9` seconds: the second delay is strictly smaller, and
both are far below `max_delay`. -/
theorem retry_jitter_delay_decreases :
    (retry_run jitterDemoConfig
        (fun _ => (.err ⟨"ConnectionError", none⟩ : AttemptResult Nat))
        jitterDemoSamples).sleeps = [10, 9]
  ∧ |jitterDemoSamples 0|
      ≤ (min (jitterDemoConfig.base_delay * jitterDemoConfig.exponential_factor ^ 0)
          jitterDemoConfig.max_delay) / 4
  ∧ |jitterDemoSamples 1|
      ≤ (min (jitterDemoConfig.base_delay * jitterDemoConfig.exponential_factor ^ 1)
          jitterDemoConfig.max_delay) / 4
  ∧ ¬ ((10 : ℚ) ≤ 9) := by
  refine ⟨?_, ?_, ?_, by norm_num⟩
  · simp only [retry_run, retry_go, jitterDemoConfig, jitterDemoSamples,
      calculate_delay, is_retryable_error]
    norm_num [min_def, max_def]
  · simp only [jitterDemoConfig, jitterDemoSamples]
    rw [abs_of_nonneg (by norm_num)]
    norm_num [min_def]
  · simp only [jitterDemoConfig, jitterDemoSamples]
    rw [abs_of_nonpos (by norm_num)]
    norm_num [min_def]

/-- C5 (amended): an operation failing retryably on every attempt is
attempted exactly `max_retries + 1` times; the sleep before retry `i` is
`max 0 (min (base_delay * exponential_factor ^ i) max_delay + jitter_i)`
where `jitter_i` is the uniform `±25%` draw when jitter is enabled and `0`
otherwise; and when jitter is disabled the delays are non-decreasing and
capped by `max_delay`.  (With jitter enabled the non-decreasing property
fails, per the counterexample.) -/
theorem retry_delay_spec {α : Type} (config : RetryConfig)
    (op : Nat → AttemptResult α) (js : Nat → ℚ) (es : Nat → PyError)
    (hfail : ∀ i, i ≤ config.max_retries → op i = .err (es i))
    (hretry : ∀ i, i < config.max_retries → is_retryable_error (es i) config = true) :
    (retry_run config op js).attemptsMade = config.max_retries + 1
  ∧ (retry_run config op js).sleeps
      = (List.range config.max_retries).map (fun i =>
          max 0 (min (config.base_delay * config.exponential_factor ^ i)
              config.max_delay
            + (if config.jitter then js i else 0)))
  ∧ (config.jitter = false → 1 ≤ config.exponential_factor →
      0 ≤ config.base_delay →
      (retry_run config op js).sleeps.Pairwise (· ≤ ·)
        ∧ ∀ d ∈ (retry_run config op js).sleeps, d ≤ max 0 config.max_delay) := by
  have h := retry_go_exhaustion config op js es config.max_retries 0 []
    (fun i h1 h2 => hfail i (by omega))
    (fun i h1 h2 => hretry i (by omega))
  have hcd : ∀ i, calculate_delay i config (js i)
      = max 0 (min (config.base_delay * config.exponential_factor ^ i)
            config.max_delay
          + (if config.jitter then js i else 0)) := by
    intro i
    unfold calculate_delay
    by_cases hj : config.jitter <;> simp [hj]
  have hsleeps : (retry_run config op js).sleeps
      = (List.range config.max_retries).map (fun i =>
          max 0 (min (config.base_delay * config.exponential_factor ^ i)
              config.max_delay
            + (if config.jitter then js i else 0))) := by
    unfold retry_run
    rw [h.2.2]
    simp only [List.reverse_nil, List.nil_append, List.range_eq_range']
    exact List.map_congr_left (fun i _ => hcd i)
  refine ⟨by simpa using h.2.1, hsleeps, ?_⟩
  intro hj hf hb
  rw [hsleeps]
  constructor
  · refine List.Pairwise.map _ ?_ (List.pairwise_lt_range config.max_retries)
    intro i j hij
    simp only [hj, Bool.false_eq_true, if_false, add_zero]
    refine max_le_max (le_refl 0) (min_le_min ?_ (le_refl _))
    exact mul_le_mul_of_nonneg_left (pow_le_pow_right₀ hf (Nat.le_of_lt hij)) hb
  · intro d hd
    obtain ⟨i, -, rfl⟩ := List.mem_map.mp hd
    simp only [hj, Bool.false_eq_true, if_false, add_zero]
    exact max_le_max (le_refl 0) (min_le_right _ _)

/-- Witness for C5's amended theorem at the default configuration with
jitter disabled and a persistent connection error. -/
theorem retry_delay_spec_witness :
    (retry_run { defaultRetryConfig with jitter := false }
        (fun _ => (.err ⟨"ConnectionError", none⟩ : AttemptResult Nat))
        (fun _ => 0)).attemptsMade = 4
  ∧ (retry_run { defaultRetryConfig with jitter := false }
        (fun _ => (.err ⟨"ConnectionError", none⟩ : AttemptResult Nat))
        (fun _ => 0)).sleeps.Pairwise (· ≤ ·) := by
  have h := retry_delay_spec { defaultRetryConfig with jitter := false }
    (fun _ => (.err ⟨"ConnectionError", none⟩ : AttemptResult Nat)) (fun _ => 0)
    (fun _ => ⟨"ConnectionError", none⟩) (fun i _ => rfl)
    (fun i _ => by simp [is_retryable_error, defaultRetryConfig])
  exact ⟨by simpa using h.1, (h.2.2 rfl (by norm_num [defaultRetryConfig]) (by norm_num [defaultRetryConfig])).1⟩

/-! ### Identity determinism and format (C1) -/

set_option maxRecDepth 8000 in
/-- Sanity anchor for the embedded MD5 against the RFC 1321 test vector. -/
theorem md5_test_vector :
    bytesHex (md5Bytes (utf8Encode "abc")) = "900150983cd24fb0d6963f7d28e17f72" := by
  decide

set_option maxRecDepth 8000 in
/-- C1: `build_hierarchical_id` is pure and deterministic; its input string
is exactly the channel id, video id and 4-digit-zero-padded chunk index
joined by colons (indices needing five or more digits simply widen the
field, with no truncation or failure); the identity is the MD5 digest of
that string's UTF-8 bytes read as a UUID; and on `("UCabc", "vid123", 7)`
the input string is `"UCabc:vid123:0007"` with the reference UUID value
computed independently. -/
theorem build_identity_spec :
    hierarchical_string "UCabc" "vid123" 7 = "UCabc:vid123:0007"
  ∧ (∀ channel_id video_id chunk_index,
      build_hierarchical_id channel_id video_id chunk_index
        = uuidOfBytes (md5Bytes (utf8Encode
            (hierarchical_string channel_id video_id chunk_index))))
  ∧ (∀ i, 4 ≤ (Nat.repr i).length → zeroPad4 i = Nat.repr i)
  ∧ (∀ i, 4 ≤ (zeroPad4 i).length)
  ∧ zeroPad4 12345 = "12345"
  ∧ (∀ c₁ v₁ i₁ c₂ v₂ i₂, c₁ = c₂ → v₁ = v₂ → i₁ = i₂ →
      build_hierarchical_id c₁ v₁ i₁ = build_hierarchical_id c₂ v₂ i₂)
  ∧ build_hierarchical_id "UCabc" "vid123" 7
      = "8dd7b8ea-dc11-c213-b062-586f8f103ea9" := by
  refine ⟨by decide, fun _ _ _ => rfl, ?_, ?_, by decide, ?_, by decide⟩
  · intro i h
    unfold zeroPad4
    rw [if_neg (by omega)]
  · intro i
    unfold zeroPad4
    by_cases h : (Nat.repr i).length < 4
    · rw [if_pos h, String.length_append]
      have : (String.mk (List.replicate (4 - (Nat.repr i).length) '0')).length
          = 4 - (Nat.repr i).length := by
        show (List.replicate (4 - (Nat.repr i).length) '0').length = _
        simp
      omega
    · rw [if_neg h]
      omega
  · intro c₁ v₁ i₁ c₂ v₂ i₂ hc hv hi
    subst hc
    subst hv
    subst hi
    rfl

/-- Witness for C1: the padding laws applied at concrete indices, and
determinism applied at a concrete triple. -/
theorem build_identity_spec_witness :
    zeroPad4 12345 = Nat.repr 12345
  ∧ 4 ≤ (zeroPad4 3).length
  ∧ build_hierarchical_id "UCabc" "vid123" 7
      = build_hierarchical_id "UCabc" "vid123" 7 :=
  ⟨build_identity_spec.2.2.1 12345 (by decide),
   build_identity_spec.2.2.2.1 3,
   build_identity_spec.2.2.2.2.2.1 "UCabc" "vid123" 7 "UCabc" "vid123" 7 rfl rfl rfl⟩

/-! ### Payload building and the ingestion coordinator
(`ChunkMetadataBuilder.build_chunk_payload`,
`create_chunks_from_supadata_response`,
`QdrantVectorDB.add_transcript_chunks`, `QdrantVectorDB.video_chunks_exist`)

The Qdrant client and the embedding model are external: the existence
scroll, the batch embedding call and each batch upsert are oracle
parameters (`Except` for the fallible calls, a per-batch success flag for
the upserts).  `datetime.utcnow()` is an oracle string. -/

/-- The payload dict built by `build_chunk_payload`. -/
structure ChunkPayload where
  channel_id : String
  channel_name : String
  video_id : String
  video_title : String
  video_url : String
  hierarchical_id : String
  chunk_index : Nat
  chunk_text : String
  start_ms : Int
  end_ms : Int
  duration_ms : Int
  lang : String
  presenters : List String
  category : String
  publish_time : String
  payload_type : String
  created_at : String
  payload_word_count : Nat
  has_speech : Bool
  timestamped_url : String
deriving DecidableEq

/-- `ChunkMetadataBuilder.build_chunk_payload` (`created_at` is the
`datetime.utcnow().isoformat()` oracle; `presenters` is already
`None`-defaulted to `[]` by the caller convention `presenters or []`). -/
def build_chunk_payload (chunk : TranscriptChunk)
    (channel_id channel_name video_id video_title video_url publish_time : String)
    (presenters : List String) (category : String) (created_at : String) :
    ChunkPayload :=
  { channel_id := channel_id, channel_name := channel_name, video_id := video_id,
    video_title := video_title, video_url := video_url,
    hierarchical_id := hierarchical_string channel_id video_id chunk.chunk_index,
    chunk_index := chunk.chunk_index, chunk_text := chunk.text,
    start_ms := chunk.start_ms, end_ms := chunk.end_ms,
    duration_ms := chunk.duration_ms,
    lang := match chunk.lang with
      | some l => if l.isEmpty then "en" else l
      | none => "en",
    presenters := presenters, category := category, publish_time := publish_time,
    payload_type := "transcript_chunk", created_at := created_at,
    payload_word_count := word_count chunk.text,
    has_speech := !(pyStrip chunk.text).isEmpty,
    timestamped_url :=
      if 0 < chunk.start_ms then
        video_url ++ "&t=" ++ Nat.repr (chunk.start_ms.toNat / 1000) ++ "s"
      else video_url }

/-- One element of the list returned by
`create_chunks_from_supadata_response`. -/
structure ChunkData where
  point_id : String
  payload : ChunkPayload
  chunk_text : String
deriving DecidableEq

/-- `create_chunks_from_supadata_response`: chunk, then build identity and
payload per chunk (the chunker is constructed with the default
`overlap_words = 20`). -/
def create_chunks_from_supadata_response (transcript_response : TranscriptData)
    (channel_id channel_name video_id video_title video_url publish_time : String)
    (presenters : List String) (category : String) (min_words max_words : Nat)
    (created_at : String) : List ChunkData :=
  (chunk_supadata_transcript min_words max_words 20 transcript_response).map
    (fun chunk =>
      { point_id := build_hierarchical_id channel_id video_id chunk.chunk_index,
        payload := build_chunk_payload chunk channel_id channel_name video_id
          video_title video_url publish_time presenters category created_at,
        chunk_text := chunk.text })

/-- A `PointStruct` handed to `client.upsert`. -/
structure QdrantPoint where
  id : String
  vector : List ℚ
  payload : ChunkPayload
deriving DecidableEq

/-- `QdrantVectorDB.video_chunks_exist`: true when the scroll returns at
least one point; a failed scroll is swallowed and reported as `false`. -/
def video_chunks_exist {σ : Type} (scroll_result : Except PyError (List σ)) : Bool :=
  match scroll_result with
  | .ok points => decide (0 < points.length)
  | .error _ => false

/-- `QdrantVectorDB.document_exists`: identical fail-open shape. -/
def document_exists {σ : Type} (scroll_result : Except PyError (List σ)) : Bool :=
  match scroll_result with
  | .ok points => decide (0 < points.length)
  | .error _ => false

/-- The `points[i : i + batch_size]` slices of the upsert loop, fuelled
(`fuel = points.length` suffices for `batch_size ≥ 1`). -/
def batches_go {α : Type} (batch_size : Nat) : Nat → List α → List (List α)
  | 0, _ => []
  | _, [] => []
  | fuel + 1, x :: xs =>
    ((x :: xs).take batch_size) :: batches_go batch_size fuel ((x :: xs).drop batch_size)

/-- The batch upsert loop: a failing batch is logged and skipped
(`continue`), a succeeding batch adds its size to `added_count`. -/
def upsert_loop {α : Type} (upsert_ok : Nat → Bool) :
    List (List α) → Nat → Nat → Nat
  | [], _, added => added
  | b :: rest, i, added =>
    upsert_loop upsert_ok rest (i + 1) (if upsert_ok i then added + b.length else added)

/-- The points prepared for upsert: chunk data zipped with the embedding
vectors (Python `zip` truncates to the shorter list). -/
def prepared_points (chunk_data : List ChunkData) (embeddings : List (List ℚ)) :
    List QdrantPoint :=
  (chunk_data.zip embeddings).map
    (fun p => { id := p.1.point_id, vector := p.2, payload := p.1.payload })

/-- `QdrantVectorDB.add_transcript_chunks`: skip when chunks already exist,
chunk and build payloads, embed, then upsert in batches of 100 skipping
failed batches; any error outside the batch loop (notably a failed
embedding call) is swallowed by the outer handler, which returns 0. -/
def add_transcript_chunks {σ : Type}
    (scroll_result : Except PyError (List σ))
    (embed_result : Except PyError (List (List ℚ)))
    (upsert_ok : Nat → Bool)
    (transcript_response : TranscriptData)
    (channel_id channel_name video_id video_title video_url publish_time : String)
    (presenters : List String) (category : String) (min_words max_words : Nat)
    (created_at : String) : Nat :=
  if video_chunks_exist scroll_result then 0
  else
    let chunk_data := create_chunks_from_supadata_response transcript_response
      channel_id channel_name video_id video_title video_url publish_time
      presenters category min_words max_words created_at
    if chunk_data.isEmpty then 0
    else
      match embed_result with
      | .error _ => 0
      | .ok embeddings =>
        let points := prepared_points chunk_data embeddings
        upsert_loop upsert_ok (batches_go 100 points.length points) 0 0

/-- The upsert loop counts exactly the sizes of the successful batches. -/
lemma upsert_loop_counts {α : Type} (upsert_ok : Nat → Bool) :
    ∀ (bs : List (List α)) (i added : Nat),
      upsert_loop upsert_ok bs i added
        = added + ((bs.enumFrom i).map
            (fun p => if upsert_ok p.1 then p.2.length else 0)).sum := by
  intro bs
  induction bs with
  | nil => intro i added; simp [upsert_loop]
  | cons b rest ih =>
    intro i added
    simp only [upsert_loop, List.enumFrom_cons, List.map_cons, List.sum_cons, ih]
    by_cases h : upsert_ok i <;> simp [h] <;> omega

/-- A two-segment demo transcript: with `min_words = 2` it chunks into
exactly two chunks. -/
def demoTranscript : TranscriptData :=
  ⟨.segments [⟨"Hello world.", 0, 1000, none⟩,
    ⟨"This is a test.", 1000, 1500, none⟩], "en"⟩

set_option maxRecDepth 8000 in
/-- C3 counterexample: a total upsert failure is reported as the
success-shaped count `0`, not as a failed ingestion.  On a transcript
producing two chunks, with every batch upsert failing the coordinator
returns `0` — the very value it returns for the already-ingested no-op —
while the same input with succeeding batches returns `2`; the function
never surfaces an error. -/
theorem total_batch_failure_returns_zero :
    add_transcript_chunks (σ := Nat) (.ok []) (.ok [[1], [1]]) (fun _ => false)
      demoTranscript "UCabc" "Chan" "vid123" "Title" "url" "2024" [] "general"
      2 300 "t0" = 0
  ∧ add_transcript_chunks (σ := Nat) (.ok []) (.ok [[1], [1]]) (fun _ => true)
      demoTranscript "UCabc" "Chan" "vid123" "Title" "url" "2024" [] "general"
      2 300 "t0" = 2
  ∧ add_transcript_chunks (σ := Nat) (.ok [0]) (.ok [[1], [1]]) (fun _ => true)
      demoTranscript "UCabc" "Chan" "vid123" "Title" "url" "2024" [] "general"
      2 300 "t0" = 0 := by
  exact ⟨by decide, by decide, by decide⟩

/-- C3 (amended): the coordinator reports partial success through the
returned count — the sum of the sizes of the successful batches — and a
total failure (every batch failing) therefore returns `0`, exactly the
success-shaped value of an empty or already-ingested transcript, with no
error surfaced. -/
theorem add_transcript_chunks_reports_counts {σ : Type}
    (scroll_result : Except PyError (List σ))
    (embeddings : List (List ℚ)) (embed_result : Except PyError (List (List ℚ)))
    (upsert_ok : Nat → Bool) (tr : TranscriptData)
    (cid cname vid vtitle vurl ptime : String)
    (pres : List String) (cat : String) (minw maxw : Nat) (ca : String) :
    (video_chunks_exist scroll_result = false →
      add_transcript_chunks scroll_result (.ok embeddings) upsert_ok tr
          cid cname vid vtitle vurl ptime pres cat minw maxw ca
        = (((batches_go 100
              (prepared_points (create_chunks_from_supadata_response tr cid cname
                vid vtitle vurl ptime pres cat minw maxw ca) embeddings).length
              (prepared_points (create_chunks_from_supadata_response tr cid cname
                vid vtitle vurl ptime pres cat minw maxw ca) embeddings)).enumFrom
              0).map (fun p => if upsert_ok p.1 then p.2.length else 0)).sum)
  ∧ ((∀ i, upsert_ok i = false) →
      add_transcript_chunks scroll_result embed_result upsert_ok tr
        cid cname vid vtitle vurl ptime pres cat minw maxw ca = 0) := by
  constructor
  · intro hscroll
    unfold add_transcript_chunks
    rw [hscroll]
    simp only [Bool.false_eq_true, if_false]
    by_cases hemp : (create_chunks_from_supadata_response tr cid cname vid vtitle
        vurl ptime pres cat minw maxw ca).isEmpty
    · rw [if_pos hemp]
      have : create_chunks_from_supadata_response tr cid cname vid vtitle vurl
          ptime pres cat minw maxw ca = [] := List.isEmpty_iff.mp hemp
      rw [this]
      simp [prepared_points, batches_go]
    · rw [if_neg hemp]
      rw [upsert_loop_counts]
      simp
  · intro hfail
    unfold add_transcript_chunks
    by_cases hscroll : video_chunks_exist scroll_result
    · rw [if_pos hscroll]
    · rw [if_neg hscroll]
      by_cases hemp : (create_chunks_from_supadata_response tr cid cname vid vtitle
          vurl ptime pres cat minw maxw ca).isEmpty
      · rw [if_pos hemp]
      · rw [if_neg hemp]
        cases embed_result with
        | error e => rfl
        | ok embeddings =>
          show upsert_loop upsert_ok _ 0 0 = 0
          rw [upsert_loop_counts]
          simp only [Nat.zero_add]
          refine List.sum_eq_zero ?_
          intro x hx
          obtain ⟨p, -, rfl⟩ := List.mem_map.mp hx
          rw [hfail p.1]
          rfl

set_option maxRecDepth 8000 in
/-- Witness for C3's amended theorem on the demo transcript. -/
theorem add_transcript_chunks_reports_counts_witness :
    add_transcript_chunks (σ := Nat) (.ok []) (.ok [[1], [1]])
      (fun i => i % 2 == 1) demoTranscript "UCabc" "Chan" "vid123" "Title" "url"
      "2024" [] "general" 2 300 "t0"
      = (((batches_go 100
            (prepared_points (create_chunks_from_supadata_response demoTranscript
              "UCabc" "Chan" "vid123" "Title" "url" "2024" [] "general" 2 300 "t0")
              [[1], [1]]).length
            (prepared_points (create_chunks_from_supadata_response demoTranscript
              "UCabc" "Chan" "vid123" "Title" "url" "2024" [] "general" 2 300 "t0")
              [[1], [1]])).enumFrom 0).map
          (fun p => if (fun i => i % 2 == 1) p.1 then p.2.length else 0)).sum
  ∧ add_transcript_chunks (σ := Nat) (.ok []) (.ok [[1], [1]]) (fun _ => false)
      demoTranscript "UCabc" "Chan" "vid123" "Title" "url" "2024" [] "general"
      2 300 "t0" = 0 := by
  constructor
  · exact (add_transcript_chunks_reports_counts (σ := Nat) (.ok []) [[1], [1]]
      (.ok [[1], [1]]) (fun i => i % 2 == 1) demoTranscript "UCabc" "Chan" "vid123"
      "Title" "url" "2024" [] "general" 2 300 "t0").1 (by decide)
  · exact (add_transcript_chunks_reports_counts (σ := Nat) (.ok []) [[1], [1]]
      (.ok [[1], [1]]) (fun _ => false) demoTranscript "UCabc" "Chan" "vid123"
      "Title" "url" "2024" [] "general" 2 300 "t0").2 (fun i => rfl)

set_option maxRecDepth 8000 in
/-- C9: the pre-ingestion existence check is fail-open.  A scroll error
inside `video_chunks_exist` (or `document_exists`) yields `false` instead
of propagating; consequently `add_transcript_chunks` behaves exactly as if
the video were absent, and on the demo transcript with a failing scroll it
proceeds to re-upsert both chunks. -/
theorem existence_check_fail_open {σ : Type} :
    (∀ e : PyError, video_chunks_exist (σ := σ) (.error e) = false)
  ∧ (∀ e : PyError, document_exists (σ := σ) (.error e) = false)
  ∧ (∀ (e : PyError) embed_result upsert_ok tr
      (cid cname vid vtitle vurl ptime : String) pres cat minw maxw ca,
      add_transcript_chunks (σ := σ) (.error e) embed_result upsert_ok tr
          cid cname vid vtitle vurl ptime pres cat minw maxw ca
        = add_transcript_chunks (σ := σ) (.ok []) embed_result upsert_ok tr
            cid cname vid vtitle vurl ptime pres cat minw maxw ca)
  ∧ add_transcript_chunks (σ := Nat) (.error ⟨"ResponseHandlingException", none⟩)
      (.ok [[1], [1]]) (fun _ => true) demoTranscript "UCabc" "Chan" "vid123"
      "Title" "url" "2024" [] "general" 2 300 "t0" = 2 := by
  exact ⟨fun _ => rfl, fun _ => rfl, fun _ _ _ _ _ _ _ _ _ _ _ _ _ _ _ => rfl,
    by decide⟩

/-! ### Rate limiter (`supadata_rate_limiter.py`)

Timestamps are rationals (seconds).  `datetime.now()` is the explicit
`now` argument of each call; `time.sleep(w)` advances the clock by exactly
`w`, so the timestamp recorded after a wait of `w` is `now + w`.  The
windows are 60 and 3600 seconds with the source's `+ 0.1` safety margin. -/

/-- The configuration of `SupadataRateLimiter` (per-minute limit, per-hour
limit, minimum interval between consecutive requests). -/
structure RateLimiterConfig where
  requests_per_minute : Nat
  requests_per_hour : Nat
  min_request_interval : ℚ

/-- The mutable state of `SupadataRateLimiter`. -/
structure RateLimiterState where
  last_request_time : Option ℚ
  minute_requests : List ℚ
  hour_requests : List ℚ
deriving DecidableEq

/-- `SupadataRateLimiter._cleanup_old_requests`: drop timestamps outside
the 1-minute and 1-hour sliding windows. -/
def cleanup_old_requests (now : ℚ) (st : RateLimiterState) : RateLimiterState :=
  { last_request_time := st.last_request_time,
    minute_requests := st.minute_requests.filter (fun t => decide (now - 60 < t)),
    hour_requests := st.hour_requests.filter (fun t => decide (now - 3600 < t)) }

/-- Python `min` over a non-empty list (`0` on the empty list, which the
source never reaches because the window is only consulted at capacity and
the limits are positive). -/
def pyMin (l : List ℚ) : ℚ :=
  match l with
  | [] => 0
  | x :: xs => xs.foldl min x

/-- The minimum-interval wait contribution of `wait_if_needed`. -/
def interval_wait (cfg : RateLimiterConfig) (st1 : RateLimiterState) (now : ℚ) : ℚ :=
  match st1.last_request_time with
  | none => 0
  | some t =>
    if now - t < cfg.min_request_interval then max 0 (cfg.min_request_interval - (now - t))
    else 0

/-- The per-minute-window wait contribution (folded over the accumulated
wait `w`, as the source's `wait_time = max(wait_time, …)`). -/
def minute_wait (cfg : RateLimiterConfig) (st1 : RateLimiterState) (now w : ℚ) : ℚ :=
  if cfg.requests_per_minute ≤ st1.minute_requests.length then
    if 0 < 60 - (now - pyMin st1.minute_requests) then
      max w (60 - (now - pyMin st1.minute_requests) + 1 / 10)
    else w
  else w

/-- The per-hour-window wait contribution. -/
def hour_wait (cfg : RateLimiterConfig) (st1 : RateLimiterState) (now w : ℚ) : ℚ :=
  if cfg.requests_per_hour ≤ st1.hour_requests.length then
    if 0 < 3600 - (now - pyMin st1.hour_requests) then
      max w (3600 - (now - pyMin st1.hour_requests) + 1 / 10)
    else w
  else w

/-- The total wait computed by `wait_if_needed` on the cleaned state. -/
def wait_time (cfg : RateLimiterConfig) (st1 : RateLimiterState) (now : ℚ) : ℚ :=
  hour_wait cfg st1 now (minute_wait cfg st1 now (interval_wait cfg st1 now))

/-- `SupadataRateLimiter.wait_if_needed`: clean the windows, compute the
wait, sleep it (advancing the clock), and record the post-sleep timestamp
in both windows and as `last_request_time`.  Returns the wait and the new
state. -/
def wait_if_needed (cfg : RateLimiterConfig) (st : RateLimiterState) (now : ℚ) :
    ℚ × RateLimiterState :=
  let st1 := cleanup_old_requests now st
  let w := wait_time cfg st1 now
  let now' := if 0 < w then now + w else now
  (w, { last_request_time := some now',
        minute_requests := st1.minute_requests ++ [now'],
        hour_requests := st1.hour_requests ++ [now'] })

/-- The dict returned by `SupadataRateLimiter.get_stats` (which also
prunes the windows before counting). -/
structure RateLimiterStats where
  requests_last_minute : Nat
  requests_last_hour : Nat
  minute_limit : Nat
  hour_limit : Nat
  last_request : Option ℚ
  min_interval : ℚ

/-- `SupadataRateLimiter.get_stats`. -/
def get_stats (cfg : RateLimiterConfig) (st : RateLimiterState) (now : ℚ) :
    RateLimiterStats :=
  let st1 := cleanup_old_requests now st
  { requests_last_minute := st1.minute_requests.length,
    requests_last_hour := st1.hour_requests.length,
    minute_limit := cfg.requests_per_minute,
    hour_limit := cfg.requests_per_hour,
    last_request := st1.last_request_time,
    min_interval := cfg.min_request_interval }

/-- Reachability invariant of the limiter state: entries never postdate the
last recorded request, and the minute window holds at most `limit` entries
— or `limit + 1` right after a blocked call, in which case its oldest entry
has already aged more than 60 seconds past the newest. -/
def RLInv (cfg : RateLimiterConfig) (st : RateLimiterState) : Prop :=
  match st.last_request_time with
  | none => st.minute_requests = []
  | some r =>
      (∀ t ∈ st.minute_requests, t ≤ r)
        ∧ (st.minute_requests.length ≤ cfg.requests_per_minute
            ∨ (st.minute_requests.length ≤ cfg.requests_per_minute + 1
                ∧ ∃ t ∈ st.minute_requests, t < r - 60))

lemma foldl_min_mem (x : ℚ) (xs : List ℚ) : xs.foldl min x ∈ x :: xs := by
  induction xs generalizing x with
  | nil => simp [List.foldl]
  | cons y ys ih =>
    simp only [List.foldl]
    have h := ih (min x y)
    rcases List.mem_cons.mp h with heq | hmem
    · rw [heq]
      rcases min_choice x y with hxy | hxy
      · rw [hxy]
        exact List.mem_cons_self _ _
      · rw [hxy]
        exact List.mem_cons_of_mem _ (List.mem_cons_self _ _)
    · exact List.mem_cons_of_mem _ (List.mem_cons_of_mem _ hmem)

lemma foldl_min_le (x : ℚ) (xs : List ℚ) :
    ∀ z ∈ x :: xs, xs.foldl min x ≤ z := by
  induction xs generalizing x with
  | nil =>
    intro z hz
    rw [List.mem_singleton] at hz
    subst hz
    simp [List.foldl]
  | cons y ys ih =>
    intro z hz
    simp only [List.foldl]
    rcases List.mem_cons.mp hz with heq | hz'
    · rw [heq]
      exact le_trans (ih (min x y) (min x y) (List.mem_cons_self _ _)) (min_le_left _ _)
    · rcases List.mem_cons.mp hz' with heq | hz''
      · rw [heq]
        exact le_trans (ih (min x y) (min x y) (List.mem_cons_self _ _)) (min_le_right _ _)
      · exact ih (min x y) z (List.mem_cons_of_mem _ hz'')

lemma pyMin_mem (l : List ℚ) (h : l ≠ []) : pyMin l ∈ l := by
  cases l with
  | nil => exact absurd rfl h
  | cons x xs => exact foldl_min_mem x xs

lemma mem_cleanup_minute {now t : ℚ} {st : RateLimiterState}
    (h : t ∈ (cleanup_old_requests now st).minute_requests) :
    t ∈ st.minute_requests ∧ now - 60 < t := by
  simp only [cleanup_old_requests, List.mem_filter, decide_eq_true_eq] at h
  exact h

/-- After cleanup at any time not earlier than the last request, the minute
window is back within its limit. -/
lemma cleanup_minute_length_le (cfg : RateLimiterConfig) (st : RateLimiterState)
    (now : ℚ) (hinv : RLInv cfg st)
    (hmono : ∀ r, st.last_request_time = some r → r ≤ now) :
    (cleanup_old_requests now st).minute_requests.length
      ≤ cfg.requests_per_minute := by
  rcases hlast : st.last_request_time with _ | r
  · unfold RLInv at hinv
    rw [hlast] at hinv
    simp [cleanup_old_requests, hinv]
  · unfold RLInv at hinv
    rw [hlast] at hinv
    obtain ⟨-, hlen⟩ := hinv
    rcases hlen with hle | ⟨hle, t0, ht0, ht0old⟩
    · exact le_trans (List.length_filter_le _ _) hle
    · have hr : r ≤ now := hmono r hlast
      have hdrop : (st.minute_requests.filter
          (fun t => decide (now - 60 < t))).length < st.minute_requests.length := by
        rw [List.length_filter_lt_length_iff_exists]
        exact ⟨t0, ht0, by simp only [decide_eq_true_eq]; intro hc; linarith⟩
      simp only [cleanup_old_requests]
      omega

lemma interval_wait_nonneg (cfg : RateLimiterConfig) (st1 : RateLimiterState)
    (now : ℚ) : 0 ≤ interval_wait cfg st1 now := by
  unfold interval_wait
  rcases st1.last_request_time with _ | t
  · simp
  · by_cases h : now - t < cfg.min_request_interval <;> simp [h]

lemma minute_wait_ge (cfg : RateLimiterConfig) (st1 : RateLimiterState)
    (now w : ℚ) : w ≤ minute_wait cfg st1 now w := by
  unfold minute_wait
  by_cases h1 : cfg.requests_per_minute ≤ st1.minute_requests.length
  · by_cases h2 : 0 < 60 - (now - pyMin st1.minute_requests) <;>
      simp [h1, h2, le_max_left]
  · simp [h1]

lemma hour_wait_ge (cfg : RateLimiterConfig) (st1 : RateLimiterState)
    (now w : ℚ) : w ≤ hour_wait cfg st1 now w := by
  unfold hour_wait
  by_cases h1 : cfg.requests_per_hour ≤ st1.hour_requests.length
  · by_cases h2 : 0 < 3600 - (now - pyMin st1.hour_requests) <;>
      simp [h1, h2, le_max_left]
  · simp [h1]

lemma wait_time_nonneg (cfg : RateLimiterConfig) (st1 : RateLimiterState)
    (now : ℚ) : 0 ≤ wait_time cfg st1 now :=
  le_trans (interval_wait_nonneg cfg st1 now)
    (le_trans (minute_wait_ge cfg st1 now _) (hour_wait_ge cfg st1 now _))

/-- When the minute window is at capacity, the wait crosses the aging-out
point of the oldest minute entry, margin included. -/
lemma wait_time_minute_bound (cfg : RateLimiterConfig) (st1 : RateLimiterState)
    (now : ℚ) (hL : 1 ≤ cfg.requests_per_minute)
    (hfull : cfg.requests_per_minute ≤ st1.minute_requests.length)
    (hfresh : ∀ t ∈ st1.minute_requests, now - 60 < t) :
    60 - (now - pyMin st1.minute_requests) + 1 / 10 ≤ wait_time cfg st1 now := by
  have hne : st1.minute_requests ≠ [] := by
    intro hc
    rw [hc] at hfull
    simp at hfull
    omega
  have hmem := pyMin_mem _ hne
  have htur : 0 < 60 - (now - pyMin st1.minute_requests) := by
    have := hfresh _ hmem
    linarith
  unfold wait_time
  refine le_trans ?_ (hour_wait_ge cfg st1 now _)
  unfold minute_wait
  rw [if_pos hfull, if_pos htur]
  exact le_max_right _ _

set_option maxHeartbeats 1000000 in
/-- C8: on every `wait_if_needed` call from a reachable state: (a) if the
pruned minute window is at capacity (as on the `(N - limit + 1)`-th call of
a burst of `N > limit` calls), the call blocks — the wait is positive and
the recorded time lies strictly past the moment the oldest minute-window
entry ages out of the window; (b) the call records exactly one new
timestamp, `now + wait`, appending it to both the minute and hour windows
and storing it in `last_request_time`; (c) the invariant is preserved and
`get_stats` at any later time reports `requests_last_minute ≤ limit`. -/
theorem rate_limiter_spec (cfg : RateLimiterConfig) (st : RateLimiterState)
    (now : ℚ) (hL : 1 ≤ cfg.requests_per_minute) (hinv : RLInv cfg st)
    (hmono : ∀ r, st.last_request_time = some r → r ≤ now) :
    (cfg.requests_per_minute ≤ (cleanup_old_requests now st).minute_requests.length →
      0 < (wait_if_needed cfg st now).1
        ∧ pyMin (cleanup_old_requests now st).minute_requests + 60
            < now + (wait_if_needed cfg st now).1)
  ∧ ((wait_if_needed cfg st now).2.last_request_time
        = some (now + (wait_if_needed cfg st now).1)
      ∧ (wait_if_needed cfg st now).2.minute_requests
          = (cleanup_old_requests now st).minute_requests
              ++ [now + (wait_if_needed cfg st now).1]
      ∧ (wait_if_needed cfg st now).2.hour_requests
          = (cleanup_old_requests now st).hour_requests
              ++ [now + (wait_if_needed cfg st now).1])
  ∧ RLInv cfg (wait_if_needed cfg st now).2
  ∧ (∀ T, now + (wait_if_needed cfg st now).1 ≤ T →
      (get_stats cfg (wait_if_needed cfg st now).2 T).requests_last_minute
        ≤ cfg.requests_per_minute) := by
  have hw0 : 0 ≤ wait_time cfg (cleanup_old_requests now st) now :=
    wait_time_nonneg cfg (cleanup_old_requests now st) now
  have hrec : (if 0 < wait_time cfg (cleanup_old_requests now st) now then
      now + wait_time cfg (cleanup_old_requests now st) now else now)
      = now + wait_time cfg (cleanup_old_requests now st) now := by
    by_cases h : 0 < wait_time cfg (cleanup_old_requests now st) now
    · rw [if_pos h]
    · rw [if_neg h]
      have : wait_time cfg (cleanup_old_requests now st) now = 0 := le_antisymm (by linarith) hw0
      rw [this, add_zero]
  have hblock : cfg.requests_per_minute
        ≤ (cleanup_old_requests now st).minute_requests.length →
      0 < (wait_if_needed cfg st now).1
        ∧ pyMin (cleanup_old_requests now st).minute_requests + 60
            < now + (wait_if_needed cfg st now).1 := by
    intro hfull
    have hfresh : ∀ t ∈ (cleanup_old_requests now st).minute_requests,
        now - 60 < t := fun t ht => (mem_cleanup_minute ht).2
    have hb := wait_time_minute_bound cfg (cleanup_old_requests now st) now hL
      hfull hfresh
    constructor
    · show 0 < wait_time cfg (cleanup_old_requests now st) now
      have hne : (cleanup_old_requests now st).minute_requests ≠ [] := by
        intro hc
        rw [hc] at hfull
        simp at hfull
        omega
      have := hfresh _ (pyMin_mem _ hne)
      linarith
    · show pyMin (cleanup_old_requests now st).minute_requests + 60
          < now + wait_time cfg (cleanup_old_requests now st) now
      linarith
  have hbook : (wait_if_needed cfg st now).2.last_request_time
        = some (now + (wait_if_needed cfg st now).1)
      ∧ (wait_if_needed cfg st now).2.minute_requests
          = (cleanup_old_requests now st).minute_requests
              ++ [now + (wait_if_needed cfg st now).1]
      ∧ (wait_if_needed cfg st now).2.hour_requests
          = (cleanup_old_requests now st).hour_requests
              ++ [now + (wait_if_needed cfg st now).1] := by
    refine ⟨?_, ?_, ?_⟩ <;> simp only [wait_if_needed, hrec]
  have hlen1 : (cleanup_old_requests now st).minute_requests.length
      ≤ cfg.requests_per_minute := cleanup_minute_length_le cfg st now hinv hmono
  have hentries : ∀ t ∈ (cleanup_old_requests now st).minute_requests, t ≤ now := by
    intro t ht
    obtain ⟨hmem, -⟩ := mem_cleanup_minute ht
    rcases hlast : st.last_request_time with _ | r
    · unfold RLInv at hinv
      rw [hlast] at hinv
      rw [hinv] at hmem
      simp at hmem
    · unfold RLInv at hinv
      rw [hlast] at hinv
      exact le_trans (hinv.1 t hmem) (hmono r hlast)
  have hw1 : 0 ≤ (wait_if_needed cfg st now).1 := hw0
  have hinv' : RLInv cfg (wait_if_needed cfg st now).2 := by
    unfold RLInv
    rw [hbook.1, hbook.2.1]
    constructor
    · intro t ht
      rcases List.mem_append.mp ht with hmem | hmem
      · exact le_trans (hentries t hmem) (by linarith [hw1])
      · simp only [List.mem_singleton] at hmem
        rw [hmem]
    · rcases Nat.lt_or_ge
        (cleanup_old_requests now st).minute_requests.length
        cfg.requests_per_minute with hlt | hge
      · left
        simp only [List.length_append, List.length_singleton]
        omega
      · right
        have hfull : cfg.requests_per_minute
            ≤ (cleanup_old_requests now st).minute_requests.length := hge
        have hne : (cleanup_old_requests now st).minute_requests ≠ [] := by
          intro hc
          rw [hc] at hfull
          simp at hfull
          omega
        obtain ⟨-, hpast⟩ := hblock hfull
        refine ⟨by simp only [List.length_append, List.length_singleton]; omega,
          pyMin (cleanup_old_requests now st).minute_requests,
          List.mem_append.mpr (Or.inl (pyMin_mem _ hne)), by linarith⟩
  refine ⟨hblock, hbook, hinv', ?_⟩
  intro T hT
  have hmono' : ∀ r, (wait_if_needed cfg st now).2.last_request_time = some r →
      r ≤ T := by
    intro r hr
    rw [hbook.1] at hr
    injection hr with hr'
    rw [← hr']
    exact hT

  exact cleanup_minute_length_le cfg (wait_if_needed cfg st now).2 T hinv' hmono'

/-- Witness for C8: with a per-minute limit of 2 and two requests already
recorded at time 0, the third call at time 0 blocks past the aging-out of
the oldest entry, and the stats after the blocked call report at most 2
requests in the last minute. -/
theorem rate_limiter_spec_witness :
    (0 < (wait_if_needed ⟨2, 100, 0⟩ ⟨some 0, [0, 0], [0, 0]⟩ 0).1
      ∧ pyMin (cleanup_old_requests 0 ⟨some 0, [0, 0], [0, 0]⟩).minute_requests + 60
          < 0 + (wait_if_needed ⟨2, 100, 0⟩ ⟨some 0, [0, 0], [0, 0]⟩ 0).1)
  ∧ RLInv ⟨2, 100, 0⟩ (wait_if_needed ⟨2, 100, 0⟩ ⟨some 0, [0, 0], [0, 0]⟩ 0).2
  ∧ (get_stats ⟨2, 100, 0⟩ (wait_if_needed ⟨2, 100, 0⟩ ⟨some 0, [0, 0], [0, 0]⟩ 0).2
      (0 + (wait_if_needed ⟨2, 100, 0⟩ ⟨some 0, [0, 0], [0, 0]⟩ 0).1)).requests_last_minute
      ≤ 2 := by
  have hclean : (cleanup_old_requests 0 ⟨some 0, [0, 0], [0, 0]⟩).minute_requests
      = [0, 0] := by
    norm_num [cleanup_old_requests, List.filter_cons]
  have hinv0 : RLInv ⟨2, 100, 0⟩ ⟨some 0, [0, 0], [0, 0]⟩ := by
    refine ⟨?_, Or.inl (by norm_num)⟩
    intro t ht
    rcases List.mem_cons.mp ht with heq | ht'
    · rw [heq]
    · rw [List.mem_singleton.mp ht']
  have hmono0 : ∀ r : ℚ,
      (⟨some 0, [0, 0], [0, 0]⟩ : RateLimiterState).last_request_time = some r →
        r ≤ 0 := by
    intro r hr
    injection hr with h'
    rw [← h']
  have h := rate_limiter_spec ⟨2, 100, 0⟩ ⟨some 0, [0, 0], [0, 0]⟩ 0
    (by norm_num) hinv0 hmono0
  exact ⟨h.1 (by rw [hclean]; norm_num), h.2.2.1, h.2.2.2 _ (le_refl _)⟩

end YTDigest
